import Mathlib

/-!
Verification of the polling/race-data scraping scripts
(`scripts/update_alabama_tracker.py` and `scripts/update_race_data.py`).

The pure text-processing and aggregation functions of both scripts are
shallowly embedded below.  Network fetches are modelled by passing the fetch
outcome as an explicit argument (`none` = the request raised an exception,
`some raw` = the fetched text), and a Python exception escaping a function is
modelled by an `Option`/`Except` result.

Python floats are modelled by `PyNum`, an exact (unnormalized) fraction.  All
numbers handled by these scripts are small decimal literals parsed from text,
for which float arithmetic coincides with exact rational arithmetic; the one
lossy spot (`f"{lead:.1f}"` rounding, which on a binary double resolves ties
by the binary representation) is modelled as round-half-up on the exact value.
Python `str.lower()` is modelled ASCII-wise by `Char.toLower`.
-/

/-- Exact fraction `num / den` modelling a Python float value.
`den` is positive for every number actually produced by the embedded code. -/
structure PyNum where
  num : Int
  den : Nat
deriving DecidableEq

/-- Rational value of a `PyNum`. -/
def pnVal (a : PyNum) : ℚ := (a.num : ℚ) / (a.den : ℚ)

/-- Python `a < b` on float values, by cross multiplication. -/
def pnLtB (a b : PyNum) : Bool := decide (a.num * (b.den : Int) < b.num * (a.den : Int))

/-- Python `a <= b` on float values, by cross multiplication. -/
def pnLeB (a b : PyNum) : Bool := decide (a.num * (b.den : Int) ≤ b.num * (a.den : Int))

/-- Python `a == b` on float values, by cross multiplication. -/
def pnEqB (a b : PyNum) : Bool := decide (a.num * (b.den : Int) = b.num * (a.den : Int))

/-- Exact difference of two fractions (Python float subtraction). -/
def pnSub (a b : PyNum) : PyNum := ⟨a.num * (b.den : Int) - b.num * (a.den : Int), a.den * b.den⟩

/-- Python `min(a, b)`: returns `b` only when `b < a` (first minimal wins). -/
def pyMin (a b : PyNum) : PyNum := if pnLtB b a then b else a

/-- Python `max(a, b)`: returns `b` only when `a < b` (first maximal wins). -/
def pyMax (a b : PyNum) : PyNum := if pnLtB a b then b else a

/-- Python `max` over a list, folding from an initial current maximum:
the current element is replaced only by a strictly greater one, so the
representative returned is the first maximal element. -/
def pyMaxFold (cur : PyNum) : List PyNum → PyNum
  | [] => cur
  | x :: t => pyMaxFold (if pnLtB cur x then x else cur) t

/-- Python `max(list)` for a nonempty list (`⟨0,1⟩` default never used by callers). -/
def pyListMax : List PyNum → PyNum
  | [] => ⟨0, 1⟩
  | v :: t => pyMaxFold v t

/-- Python `list.index(x)` with float (value) equality: first value-equal index. -/
def idxOfValPN (x : PyNum) : List PyNum → Nat
  | [] => 0
  | y :: t => if pnEqB y x then 0 else idxOfValPN x t + 1

/-- One step of stable descending insertion sort by value. -/
def insertDescPN (x : PyNum) : List PyNum → List PyNum
  | [] => [x]
  | h :: t => if pnLtB x h then h :: insertDescPN x t else x :: h :: t

/-- Python `sorted(list, reverse=True)` on float values. -/
def sortDescPN (l : List PyNum) : List PyNum := List.foldr insertDescPN [] l

/-- The ASCII whitespace characters recognised by Python's `\s` / `str.split()`. -/
def isPySpace (c : Char) : Bool :=
  c = ' ' ∨ c = '\t' ∨ c = '\n' ∨ c = '\r' ∨ c = Char.ofNat 11 ∨ c = Char.ofNat 12

/-- Python substring containment `needle in hay`. -/
def strHas : List Char → List Char → Bool
  | [], needle => needle.isEmpty
  | c :: t, needle => needle.isPrefixOf (c :: t) || strHas t needle

/-- Index of the first occurrence of `needle` in `hay`, if any. -/
def subIdx : List Char → List Char → Option Nat
  | hay, needle =>
    if needle.isPrefixOf hay then some 0
    else
      match hay with
      | [] => none
      | _ :: t => (subIdx t needle).map (· + 1)

/-- Python `str.lower()` (ASCII model). -/
def lowerStr (s : String) : String := ⟨s.data.map Char.toLower⟩

/-- Drop leading Python whitespace. -/
def trimLeftWs (cs : List Char) : List Char := cs.dropWhile isPySpace

/-- Drop trailing Python whitespace. -/
def trimRightWs (cs : List Char) : List Char := (cs.reverse.dropWhile isPySpace).reverse

/-- Python `str.strip()`. -/
def trimWs (cs : List Char) : List Char := trimRightWs (trimLeftWs cs)

/-- Replace each maximal run of whitespace by a single space
(`re.sub(r"\s+", " ", text)`). -/
def collapseWs : List Char → List Char
  | [] => []
  | [c] => if isPySpace c then [' '] else [c]
  | c1 :: c2 :: rest =>
    if isPySpace c1 ∧ isPySpace c2 then collapseWs (c2 :: rest)
    else (if isPySpace c1 then ' ' else c1) :: collapseWs (c2 :: rest)

/-- After an opening `[` and one non-`]` character: scan to the closing `]`,
returning the remainder after it. -/
def bracketClose : List Char → Option (List Char)
  | [] => none
  | c :: rest => if c = ']' then some rest else bracketClose rest

/-- After an opening `[`: the regex `\[[^\]]+\]` needs at least one non-`]`
character before the closing `]`. -/
def bracketRest : List Char → Option (List Char)
  | [] => none
  | c :: rest => if c = ']' then none else bracketClose rest

/-- `re.sub(r"\[[^\]]+\]", "", text)`: drop bracketed citation markup.
Fuel-driven so that the kernel can evaluate it; the fuel `length + 1` is
always sufficient since every step consumes at least one character. -/
def stripBracketsGo : Nat → List Char → List Char
  | 0, cs => cs
  | _ + 1, [] => []
  | fuel + 1, c :: rest =>
    if c = '[' then
      match bracketRest rest with
      | some rest2 => stripBracketsGo fuel rest2
      | none => c :: stripBracketsGo fuel rest
    else c :: stripBracketsGo fuel rest

/-- `re.sub(r"\[[^\]]+\]", "", text)`. -/
def stripBrackets (cs : List Char) : List Char := stripBracketsGo (cs.length + 1) cs

/-- `clean_text` of `update_alabama_tracker.py`: strip `[...]` markup,
collapse whitespace runs to single spaces, and strip the ends. -/
def clean_text (s : String) : String := ⟨trimWs (collapseWs (stripBrackets s.data))⟩

/-- Numeric value of `0-9` digits. -/
def natOfDigits (ds : List Char) : Nat := ds.foldl (fun acc c => 10 * acc + (c.toNat - 48)) 0

/-- Value of the regex group `([0-9]+(?:\.[0-9]+)?)` matched at the head of
`cs` (the head is a digit): greedy digits, then an optional fraction part. -/
def tokenRat (cs : List Char) : PyNum :=
  let ds := cs.takeWhile Char.isDigit
  let rest := cs.dropWhile Char.isDigit
  match rest with
  | '.' :: r2 =>
    let fs := r2.takeWhile Char.isDigit
    if fs = [] then ⟨(natOfDigits ds : Int), 1⟩
    else ⟨(natOfDigits (ds ++ fs) : Int), 10 ^ fs.length⟩
  | _ => ⟨(natOfDigits ds : Int), 1⟩

/-- `re.search` scan for the first position where `([0-9]+(?:\.[0-9]+)?)`
matches: the first digit starts the match. -/
def afpScan : List Char → Option PyNum
  | [] => none
  | c :: rest => if c.isDigit then some (tokenRat (c :: rest)) else afpScan rest

/-- `as_float_percent` of `update_alabama_tracker.py`: first embedded number,
or `None` when the string holds no digit.  `float(...)` of the matched group
never raises, and is modelled exactly. -/
def as_float_percent (v : String) : Option PyNum := afpScan v.data

/-- `maybe_parse_price` of `update_race_data.py`, on an already-numeric input
(`none` models Python `None`; a non-numeric input, for which `float(value)`
raises, is likewise modelled by `none`): divide by 100 when above 1, then
clamp into `[0, 1]` via `max(0.0, min(1.0, x))`. -/
def maybe_parse_price (value : Option PyNum) : Option PyNum :=
  match value with
  | none => none
  | some x0 =>
    let x := if pnLtB ⟨1, 1⟩ x0 then ⟨x0.num, x0.den * 100⟩ else x0
    some (pyMax ⟨0, 1⟩ (pyMin ⟨1, 1⟩ x))

/-- One `td` cell of a scraped table row: its whitespace-joined text content
(`" ".join(td.xpath(".//text()"))`) and, for the pollster cell, the first
`sup.reference` link target if present. -/
structure Cell where
  text : String
  ref : Option String
deriving DecidableEq

/-- Default cell (used only for out-of-range `getD` accesses that the source
never performs). -/
def defCell : Cell := ⟨"", none⟩

/-- One `table` element of the fetched document: its `class` attribute, the
texts of the `th` cells of its first row (`.//tr[1]/th`), and the `td` cells
of the remaining rows (`.//tr[position()>1]`). -/
structure Table where
  cls : String
  headerRow : List String
  dataRows : List (List Cell)
deriving DecidableEq

/-- The ` | `-joined cleaned header text that `find_table` matches tokens
against. -/
def headerText (t : Table) : String :=
  String.intercalate " | " (t.headerRow.map clean_text)

/-- `find_table`'s per-table test: the table is selected by the xpath
`//table[contains(@class,'wikitable')]` and every required token occurs in
the joined header text. -/
def tableMatch (must_include : List String) (t : Table) : Bool :=
  strHas t.cls.data "wikitable".data &&
    must_include.all (fun tok => strHas (headerText t).data tok.data)

/-- `find_table` of `update_alabama_tracker.py`: first table of the document
passing `tableMatch`, else `None`. -/
def find_table (doc : List Table) (must_include : List String) : Option Table :=
  doc.find? (tableMatch must_include)

/-- Candidate headers: `headers[4:]` truncated at the first `other` /
`undecided` column (case-insensitively). -/
def candHeaders : List String → List String
  | [] => []
  | h :: t =>
    if lowerStr h = "other" ∨ lowerStr h = "undecided" then []
    else h :: candHeaders t

/-- The second loop building `ordered_candidates`: append the candidate
headers not already present, in order. -/
def addMissing (acc : List String) : List String → List String
  | [] => acc
  | c :: t => if acc.contains c then addMissing acc t else addMissing (acc ++ [c]) t

/-- Python `list.index` for strings (callers only use it on members). -/
def idxOfStr (x : String) : List String → Nat
  | [] => 0
  | y :: t => if y = x then 0 else idxOfStr x t + 1

/-- Python `str.split()` (no argument): whitespace-run separated words. -/
def wordsAux : List Char → List Char → List (List Char)
  | [], acc => if acc = [] then [] else [acc.reverse]
  | c :: rest, acc =>
    if isPySpace c then
      (if acc = [] then wordsAux rest [] else acc.reverse :: wordsAux rest [])
    else wordsAux rest (c :: acc)

/-- `re.sub(r"\s*\(R\)\s*$", "", pollster).strip()`: drop one trailing
`(R)` marker (with surrounding whitespace) and strip. -/
def normPollster (s : String) : String :=
  let t := trimRightWs s.data
  if "(R)".data.isSuffixOf t then ⟨trimWs (t.take (t.length - 3))⟩ else ⟨trimWs s.data⟩

/-- `str.replace(".0", "")`: remove every (left-to-right, non-overlapping)
occurrence of `.0`. -/
def replaceDotZero : List Char → List Char
  | '.' :: '0' :: t => replaceDotZero t
  | c :: t => c :: replaceDotZero t
  | [] => []

/-- `f"{q:.1f}"` for the nonnegative leads produced by the source: fixed
one-decimal formatting of the exact value, rounding half up (a binary double
would resolve exact ties by its representation; no claim exercises a tie). -/
def fmt1 (q : PyNum) : String :=
  let n : Int := Int.fdiv (20 * q.num + (q.den : Int)) (2 * (q.den : Int))
  toString (Int.fdiv n 10) ++ "." ++ toString (Int.emod n 10).toNat

/-- The spread computation of `parse_table`'s row loop, reached when all
values parsed and there are at least two: first maximal value wins, lead is
the gap between the two largest sorted values, and the winner is shown by the
last word of their name.  `None` models the `IndexError` of `split()[-1]`
on a whitespace-only candidate name. -/
def spreadCalc (ordered : List String) (numeric : List PyNum) : Option String :=
  let maxV := pyListMax numeric
  let wi := idxOfValPN maxV numeric
  let sorted := sortDescPN numeric
  let lead := pnSub (sorted.getD 0 ⟨0, 1⟩) (sorted.getD 1 ⟨0, 1⟩)
  match (wordsAux (ordered.getD wi "").data []).getLast? with
  | none => none
  | some w => some ⟨replaceDotZero ((⟨w⟩ : String) ++ " +" ++ fmt1 lead).data⟩

/-- A parsed poll row as emitted by `parse_table`. -/
structure PollRow where
  pollster : String
  pollster_url : String
  date : String
  sample : String
  values : List String
  spread : String
deriving DecidableEq

/-- `parse_table`'s result: the ordered candidate list and the kept rows. -/
structure ParsedTable where
  headers : List String
  rows : List PollRow
deriving DecidableEq

/-- `values` of `parse_table`'s row loop: the cleaned value cells
`tds[4 : 4 + len(candidate_headers)]`, reordered along `idx`. -/
def rowValues (ch : List String) (idx : List Nat) (tds : List Cell) : List String :=
  idx.map (fun i => (((tds.drop 4).take ch.length).map (fun c => clean_text c.text)).getD i "")

/-- The spread computed for one row: `—` unless every value parses and there
are at least two (`none` models the exception inside `spreadCalc`). -/
def rowSpread (ordered : List String) (values : List String) : Option String :=
  let numeric := values.map as_float_percent
  if numeric.all Option.isSome ∧ 2 ≤ numeric.length then
    spreadCalc ordered (numeric.map (fun o => o.getD ⟨0, 1⟩))
  else some "—"

/-- `pollster_url`: the footnote link target of the first cell's reference
marker, looked up in the notes map. -/
def rowUrl (notes : List (String × String)) (tds : List Cell) : String :=
  match (tds.headD defCell).ref with
  | some r =>
    match r.data with
    | '#' :: tail => (List.lookup (⟨tail⟩ : String) notes).getD ""
    | _ => ""
  | none => ""

/-- The body of `parse_table`'s row loop for one `tr`.  `Except.ok none` is a
`continue` (row skipped), `Except.error ()` a Python exception escaping the
loop (only possible inside `spreadCalc`). -/
def rowToPoll (notes : List (String × String)) (headers ch ordered : List String)
    (idx : List Nat) (race_id : String) (tds : List Cell) : Except Unit (Option PollRow) :=
  if tds.length < 4 + ch.length then Except.ok none
  else if clean_text (tds.headD defCell).text = "" then Except.ok none
  else if race_id = "al1_house_gop" ∧
      strHas (String.intercalate " " headers).data "Heather Moore".data then
    Except.ok none
  else
    match rowSpread ordered (rowValues ch idx tds) with
    | none => Except.error ()
    | some spread =>
      Except.ok (some ⟨normPollster (clean_text (tds.headD defCell).text), rowUrl notes tds,
        clean_text (tds.getD 1 defCell).text, clean_text (tds.getD 2 defCell).text,
        rowValues ch idx tds, spread⟩)

/-- The row loop of `parse_table`: skipped rows contribute nothing, an
exception aborts the whole call. -/
def rowsLoop (f : List Cell → Except Unit (Option PollRow)) : List (List Cell) → Option (List PollRow)
  | [] => some []
  | tds :: rest =>
    match f tds with
    | Except.error _ => none
    | Except.ok none => rowsLoop f rest
    | Except.ok (some r) => (rowsLoop f rest).map (fun l => r :: l)

/-- The cleaned header texts (`headers` of `parse_table`). -/
def tableHeadersClean (t : Table) : List String := t.headerRow.map clean_text

/-- `candidate_headers` of `parse_table`. -/
def tableCH (t : Table) : List String := candHeaders ((tableHeadersClean t).drop 4)

/-- `ordered_candidates` of `parse_table`: requested display order first,
then the unseen candidate columns. -/
def tableOrdered (t : Table) (target_candidates : List String) : List String :=
  addMissing (target_candidates.filter (fun c => (tableCH t).contains c)) (tableCH t)

/-- `idx` of `parse_table`: source column index of each ordered candidate. -/
def tableIdx (t : Table) (target_candidates : List String) : List Nat :=
  (tableOrdered t target_candidates).map (fun c => idxOfStr c (tableCH t))

/-- `parse_table` of `update_alabama_tracker.py`.  `none` models a Python
exception escaping the call (possible only via `spreadCalc`). -/
def parse_table (table : Table) (notes : List (String × String))
    (target_candidates : List String) (race_id : String) : Option ParsedTable :=
  match rowsLoop
      (rowToPoll notes (tableHeadersClean table) (tableCH table)
        (tableOrdered table target_candidates) (tableIdx table target_candidates) race_id)
      table.dataRows with
  | none => none
  | some rows => some ⟨tableOrdered table target_candidates, rows.take 8⟩

/-- Models Python's `max(range(len(vals)), key=lambda i: vals[i])`: the index
of the first value-maximal element (Python `max` replaces its current best
only on a strictly greater key). -/
def argmaxIdx : List PyNum → Nat
  | [] => 0
  | v :: t =>
    if t = [] then 0
    else if pnLtB v (pyListMax t) then argmaxIdx t + 1 else 0

/-- The parsed numeric values of a row's `values` list, with the (never
reached under the all-parsed guards) `None` placeholder defaulted to 0. -/
def rowVals (first : PollRow) : List PyNum :=
  (first.values.map as_float_percent).map (fun o => o.getD ⟨0, 1⟩)

/-- `build_snapshot` of `update_alabama_tracker.py`.  `none` models a Python
exception: `headers[winner_i]` out of range, or `max(vals)` on an empty
list. -/
def build_snapshot (race_name : String) (headers : List String) (rows : List PollRow) :
    Option (List String) :=
  match rows with
  | [] => some ["No currently published polling table was found for " ++ race_name ++ "."]
  | first :: rest =>
    let opts := first.values.map as_float_percent
    let allSome := opts.all Option.isSome
    let vals := rowVals first
    let r := argmaxIdx vals
    let b1? : Option String :=
      if allSome = true ∧ 2 ≤ vals.length then
        if r < headers.length then
          some (headers.getD r "" ++ " leads the most recent published poll row (" ++
            first.spread ++ ").")
        else none
      else some "The most recent poll row shows a fragmented field with no clear majority."
    match b1? with
    | none => none
    | some b1 =>
      let b2 : List String :=
        match rest with
        | [] => []
        | second :: _ =>
          ["Next-most-recent row is " ++ second.pollster ++ " (" ++ second.date ++ ", " ++
            second.sample ++ ")."]
      if allSome = true ∧ vals = [] then none
      else
        let b3 :=
          if allSome = true ∧ pnLtB (pyListMax vals) ⟨50, 1⟩ then
            "No candidate is near an outright majority in recent toplines, keeping runoff dynamics relevant."
          else "Recent toplines show a clear front-runner advantage."
        some ([b1] ++ b2 ++ [b3])

/-- After an opening `<` and one non-`>` character: scan to the closing `>`. -/
def tagClose : List Char → Option (List Char)
  | [] => none
  | c :: rest => if c = '>' then some rest else tagClose rest

/-- After an opening `<`: the regex `<[^>]+>` needs at least one inner character. -/
def tagRest : List Char → Option (List Char)
  | [] => none
  | c :: rest => if c = '>' then none else tagClose rest

/-- `re.sub(r"<[^>]+>", " ", raw)`: each tag becomes a single space (fuelled;
`length + 1` always suffices). -/
def stripTagsGo : Nat → List Char → List Char
  | 0, cs => cs
  | _ + 1, [] => []
  | fuel + 1, c :: rest =>
    if c = '<' then
      match tagRest rest with
      | some rest2 => ' ' :: stripTagsGo fuel rest2
      | none => c :: stripTagsGo fuel rest
    else c :: stripTagsGo fuel rest

/-- `re.sub(r"<[^>]+>", " ", raw)`. -/
def stripTags (cs : List Char) : List Char := stripTagsGo (cs.length + 1) cs

/-- The named HTML entities modelled for `html.unescape` (the entities that
occur on the scraped pages; Python knows the full W3C table). -/
def namedEntity (nm : String) : Option Char :=
  List.lookup nm
    [("amp", '&'), ("lt", '<'), ("gt", '>'), ("quot", '"'), ("apos", Char.ofNat 39),
     ("nbsp", Char.ofNat 160), ("ndash", '–'), ("mdash", '—'), ("rsquo", '’'),
     ("lsquo", '‘'), ("ldquo", '“'), ("rdquo", '”'), ("hellip", '…')]

/-- Hexadecimal digit value. -/
def hexDigitVal (c : Char) : Nat :=
  if c.isDigit then c.toNat - 48
  else if 'a' ≤ c ∧ c ≤ 'f' then c.toNat - 87
  else c.toNat - 55

/-- Is a hexadecimal digit. -/
def isHexDigit (c : Char) : Bool := c.isDigit || ('a' ≤ c ∧ c ≤ 'f') || ('A' ≤ c ∧ c ≤ 'F')

/-- Parse one character reference after a `&`; returns the decoded character
and the remainder.  Semicolon-terminated numeric (`&#NNN;`, `&#xHH;`) and
named forms are modelled. -/
def parseEntity (cs : List Char) : Option (Char × List Char) :=
  match cs with
  | '#' :: r =>
    (match r with
     | x :: r2 =>
       if x = 'x' ∨ x = 'X' then
         let hs := r2.takeWhile isHexDigit
         match r2.dropWhile isHexDigit with
         | ';' :: r3 =>
           if hs = [] then none
           else some (Char.ofNat (hs.foldl (fun acc c => 16 * acc + hexDigitVal c) 0), r3)
         | _ => none
       else
         let ds := (x :: r2).takeWhile Char.isDigit
         match (x :: r2).dropWhile Char.isDigit with
         | ';' :: r3 => if ds = [] then none else some (Char.ofNat (natOfDigits ds), r3)
         | _ => none
     | [] => none)
  | _ =>
    let nm := cs.takeWhile Char.isAlpha
    match cs.dropWhile Char.isAlpha with
    | ';' :: r3 =>
      match namedEntity ⟨nm⟩ with
      | some ch => some (ch, r3)
      | none => none
    | _ => none

/-- `html.unescape` (fuelled scan; `length + 1` always suffices). -/
def pyUnescapeGo : Nat → List Char → List Char
  | 0, cs => cs
  | _ + 1, [] => []
  | fuel + 1, c :: rest =>
    if c = '&' then
      match parseEntity rest with
      | some (ch, r2) => ch :: pyUnescapeGo fuel r2
      | none => c :: pyUnescapeGo fuel rest
    else c :: pyUnescapeGo fuel rest

/-- `html.unescape`. -/
def pyUnescape (cs : List Char) : List Char := pyUnescapeGo (cs.length + 1) cs

/-- Python regex `\w` (ASCII model). -/
def isWordChar (c : Char) : Bool := c.isAlpha || c.isDigit || c = '_'

/-- `A`-`Z`. -/
def isUpperAZ (c : Char) : Bool := 'A' ≤ c ∧ c ≤ 'Z'

/-- The character class `[A-Za-z\-’' ]` of the Cook findall pattern. -/
def cookClassChar (c : Char) : Bool :=
  c.isAlpha || c = '-' || c = '’' || c = Char.ofNat 39 || c = ' '

/-- Word-character status of the character at index `i` (`false` beyond the
end), used for `\b` boundary checks. -/
def charWordAt (cs : List Char) (i : Nat) : Bool :=
  match cs.drop i with
  | [] => false
  | c :: _ => isWordChar c

/-- `\b` between positions `m - 1` and `m`. -/
def boundaryOk (cs : List Char) (m : Nat) : Bool := charWordAt cs (m - 1) != charWordAt cs m

/-- Greedy-with-backtracking match of `[A-Za-z\-’' ]{2,35}\b` at the head of
`cs`: try the longest class run first (the argument starts at
`min (class run) 35`), shrinking until the trailing boundary holds. -/
def cookTryClass (cs : List Char) : Nat → Option Nat
  | 0 => none
  | 1 => none
  | m + 1 => if boundaryOk cs (m + 1) then some (m + 1) else cookTryClass cs m

/-- Greedy-with-backtracking match of `\s+[A-Za-z\-’' ]{2,35}\b` at the head
of `cs`: try the longest whitespace run first (the argument starts at the
whitespace-run length), shrinking; returns (whitespace length, class length). -/
def cookTryWs (cs : List Char) : Nat → Option (Nat × Nat)
  | 0 => none
  | j + 1 =>
    let tail := cs.drop (j + 1)
    match cookTryClass tail (min (tail.takeWhile cookClassChar).length 35) with
    | some m => some (j + 1, m)
    | none => cookTryWs cs j

/-- Match `\b([A-Z]{2})\s+([A-Za-z\-’' ]{2,35})\b` at the current position
(`prevWord` is the word-character status of the preceding character); returns
the two-letter state group and the total match length. -/
def cookMatchAt (prevWord : Bool) (cs : List Char) : Option (String × Nat) :=
  match cs with
  | a :: b :: rest =>
    if prevWord then none
    else if isUpperAZ a ∧ isUpperAZ b then
      match cookTryWs rest (rest.takeWhile isPySpace).length with
      | some (j, m) => some (⟨[a, b]⟩, 2 + j + m)
      | none => none
    else none
  | _ => none

/-- `re.findall` scan for the Cook pattern: leftmost non-overlapping matches,
collecting the state-code group (the name group is unused by the source).
Fuelled; `length + 1` always suffices. -/
def cookScan : Nat → Bool → List Char → List String
  | 0, _, _ => []
  | _ + 1, _, [] => []
  | fuel + 1, prevWord, c :: rest =>
    match cookMatchAt prevWord (c :: rest) with
    | some (st, len) =>
      st :: cookScan fuel (charWordAt (c :: rest) (len - 1)) ((c :: rest).drop len)
    | none => cookScan fuel (isWordChar c) rest

/-- `re.search(start + r"(.*?)" + end, text, re.IGNORECASE)`: the chunk
between the first occurrence of `start` and the earliest following `end`
(the collapsed text contains no raw newlines, so `.` is unrestricted). -/
def sectionChunk (text : List Char) (startPat endPat : String) : Option (List Char) :=
  let lt := text.map Char.toLower
  match subIdx lt (startPat.data.map Char.toLower) with
  | none => none
  | some i =>
    let j := i + startPat.data.length
    match subIdx (lt.drop j) (endPat.data.map Char.toLower) with
    | none => none
    | some k => some ((text.drop j).take k)

/-- The `STATE_TO_CODE` constant of `update_race_data.py`. -/
def STATE_TO_CODE : List (String × String) :=
  [("Alabama", "AL"), ("Alaska", "AK"), ("Arizona", "AZ"), ("Arkansas", "AR"),
   ("California", "CA"), ("Colorado", "CO"), ("Connecticut", "CT"), ("Delaware", "DE"),
   ("Florida", "FL"), ("Georgia", "GA"), ("Hawaii", "HI"), ("Idaho", "ID"),
   ("Illinois", "IL"), ("Indiana", "IN"), ("Iowa", "IA"), ("Kansas", "KS"),
   ("Kentucky", "KY"), ("Louisiana", "LA"), ("Maine", "ME"), ("Maryland", "MD"),
   ("Massachusetts", "MA"), ("Michigan", "MI"), ("Minnesota", "MN"), ("Mississippi", "MS"),
   ("Missouri", "MO"), ("Montana", "MT"), ("Nebraska", "NE"), ("Nevada", "NV"),
   ("New Hampshire", "NH"), ("New Jersey", "NJ"), ("New Mexico", "NM"), ("New York", "NY"),
   ("North Carolina", "NC"), ("North Dakota", "ND"), ("Ohio", "OH"), ("Oklahoma", "OK"),
   ("Oregon", "OR"), ("Pennsylvania", "PA"), ("Rhode Island", "RI"), ("South Carolina", "SC"),
   ("South Dakota", "SD"), ("Tennessee", "TN"), ("Texas", "TX"), ("Utah", "UT"),
   ("Vermont", "VT"), ("Virginia", "VA"), ("Washington", "WA"), ("West Virginia", "WV"),
   ("Wisconsin", "WI"), ("Wyoming", "WY")]

/-- `STATE_TO_CODE.values()`. -/
def stateCodes : List String := STATE_TO_CODE.map Prod.snd

/-- `code_to_name` of `update_race_data.py`: first state name carrying the
code, else the code itself. -/
def code_to_name (code : String) : String :=
  match STATE_TO_CODE.find? (fun p => p.2 = code) with
  | some p => p.1
  | none => code

/-- One rating entry: state name and Cook rating label. -/
structure SwingInfo where
  state_name : String
  cook_rating : String
deriving DecidableEq

/-- The `DEFAULT_SWING` constant of `update_race_data.py`. -/
def DEFAULT_SWING : List (String × SwingInfo) :=
  [("NH", ⟨"New Hampshire", "Lean Democrat"⟩),
   ("GA", ⟨"Georgia", "Toss Up"⟩),
   ("ME", ⟨"Maine", "Toss Up"⟩),
   ("MI", ⟨"Michigan", "Toss Up"⟩),
   ("NC", ⟨"North Carolina", "Toss Up"⟩),
   ("AK", ⟨"Alaska", "Lean Republican"⟩),
   ("OH", ⟨"Ohio", "Lean Republican"⟩)]

/-- `d[k] = v` on a Python dict modelled as an insertion-ordered association
list: overwrite in place, or append a new key. -/
def dictInsert {α : Type} (k : String) (v : α) : List (String × α) → List (String × α)
  | [] => [(k, v)]
  | (k2, v2) :: t => if k2 = k then (k2, v) :: t else (k2, v2) :: dictInsert k v t

/-- The inner loop of `parse_cook_swing`'s section handling: record each
found two-letter group that is a known state code. -/
def cookSectionInto (label : String) (out : List (String × SwingInfo)) :
    List String → List (String × SwingInfo)
  | [] => out
  | st :: rest =>
    if stateCodes.contains st then
      cookSectionInto label (dictInsert st ⟨code_to_name st, label⟩ out) rest
    else cookSectionInto label out rest

/-- The `section_patterns` loop of `parse_cook_swing`. -/
def cookSections (text : List Char) (out : List (String × SwingInfo)) :
    List (String × String × String) → List (String × SwingInfo)
  | [] => out
  | (s, e, label) :: rest =>
    match sectionChunk text s e with
    | none => cookSections text out rest
    | some chunk =>
      cookSections text (cookSectionInto label out (cookScan (chunk.length + 1) false chunk)) rest

/-- The parsing part of `parse_cook_swing` applied to fetched text. -/
def cookFromText (raw : String) : List (String × SwingInfo) :=
  let text := pyUnescape (collapseWs (stripTags raw.data))
  cookSections text []
    [("Lean D", "Toss Up", "Lean Democrat"),
     ("Toss Up", "Lean R", "Toss Up"),
     ("Lean R", "Likely R", "Lean Republican")]

/-- `parse_cook_swing` of `update_race_data.py`: the fetch outcome is the
argument (`none` = `fetch_text` raised).  Fewer than 4 parsed entries fall
back to `DEFAULT_SWING`. -/
def parse_cook_swing (fetch : Option String) : List (String × SwingInfo) :=
  match fetch with
  | none => DEFAULT_SWING
  | some raw =>
    let out := cookFromText raw
    if 4 ≤ out.length then out else DEFAULT_SWING

/-- Literal match: consume `lit` from the head of `cs`. -/
def expectLit (lit cs : List Char) : Option (List Char) :=
  if lit.isPrefixOf cs then some (cs.drop lit.length) else none

/-- Exactly `n` decimal digits from the head of `cs`. -/
def takeNDigits : Nat → List Char → Option (List Char × List Char)
  | 0, cs => some ([], cs)
  | _ + 1, [] => none
  | n + 1, c :: rest =>
    if c.isDigit then (takeNDigits n rest).map (fun p => (c :: p.1, p.2)) else none

/-- The date part `[0-9]{2}/[0-9]{2}/[0-9]{4}` of the NCSL row pattern;
returns the matched group text and the remainder. -/
def ncslDate (cs : List Char) : Option (List Char × List Char) :=
  match takeNDigits 2 cs with
  | none => none
  | some (d1, r1) =>
    match r1 with
    | '/' :: r2 =>
      match takeNDigits 2 r2 with
      | none => none
      | some (d2, r3) =>
        match r3 with
        | '/' :: r4 =>
          match takeNDigits 4 r4 with
          | none => none
          | some (d3, r5) => some (d1 ++ '/' :: d2 ++ '/' :: d3, r5)
        | _ => none
    | _ => none

/-- Match the NCSL row pattern
`>([A-Za-z ]+)</td>\s*<td>\s*([0-9]{2}/[0-9]{2}/[0-9]{4})\s*</td>` at the
current position; returns the two groups and the remainder after the match.
No backtracking is needed: every quantified class here is disjoint from the
literal that follows it. -/
def ncslMatchAt (cs : List Char) : Option ((String × String) × List Char) :=
  match cs with
  | '>' :: r1 =>
    let nameChar : Char → Bool := fun c => c.isAlpha || c = ' '
    let nm := r1.takeWhile nameChar
    if nm = [] then none
    else
      match expectLit "</td>".data (r1.dropWhile nameChar) with
      | none => none
      | some r2 =>
        match expectLit "<td>".data (r2.dropWhile isPySpace) with
        | none => none
        | some r3 =>
          match ncslDate (r3.dropWhile isPySpace) with
          | none => none
          | some (dt, r4) =>
            match expectLit "</td>".data (r4.dropWhile isPySpace) with
            | none => none
            | some r5 => some ((⟨nm⟩, ⟨dt⟩), r5)
  | _ => none

/-- `re.findall` scan for the NCSL row pattern (leftmost, non-overlapping;
fuelled, `length + 1` always suffices). -/
def ncslScanGo : Nat → List Char → List (String × String)
  | 0, _ => []
  | _ + 1, [] => []
  | fuel + 1, c :: rest =>
    match ncslMatchAt (c :: rest) with
    | some (pair, rem) => pair :: ncslScanGo fuel rem
    | none => ncslScanGo fuel rest

/-- All NCSL row matches of the fetched page. -/
def ncslFindall (raw : String) : List (String × String) := ncslScanGo (raw.data.length + 1) raw.data

/-- `%B` month names. -/
def monthNames : List String :=
  ["January", "February", "March", "April", "May", "June", "July", "August",
   "September", "October", "November", "December"]

/-- Gregorian leap year. -/
def isLeapYear (y : Nat) : Bool := (y % 4 = 0 && !(y % 100 = 0)) || y % 400 = 0

/-- Days in a month. -/
def daysInMonth (y m : Nat) : Nat :=
  if m = 2 then (if isLeapYear y then 29 else 28)
  else if m = 4 ∨ m = 6 ∨ m = 9 ∨ m = 11 then 30 else 31

/-- `fmt_mmddyyyy` of `update_race_data.py`: split on `/`, build a
`datetime.date` and render `%B %-d, %Y`.  `none` models the `ValueError`
raised by `datetime.date` on an invalid month or day (or a zero year). -/
def fmt_mmddyyyy (s : String) : Option String :=
  match s.data.splitOn '/' with
  | [ms, ds, ys] =>
    let m := natOfDigits ms
    let d := natOfDigits ds
    let y := natOfDigits ys
    if 1 ≤ y ∧ 1 ≤ m ∧ m ≤ 12 ∧ 1 ≤ d ∧ d ≤ daysInMonth y m then
      some (monthNames.getD (m - 1) "" ++ " " ++ toString d ++ ", " ++ toString y)
    else none
  | _ => none

/-- The collection loop of `parse_ncsl_primary_dates`: strip each matched
state name (`html.unescape` is the identity on `[A-Za-z ]` text), keep known
states, format the date.  A formatting `ValueError` aborts the `try` block,
keeping the dates collected so far. -/
def ncslCollect (acc : List (String × String)) : List (String × String) → List (String × String)
  | [] => acc
  | (nm, dv) :: rest =>
    match List.lookup (⟨trimWs nm.data⟩ : String) STATE_TO_CODE with
    | some code =>
      match fmt_mmddyyyy dv with
      | some d => ncslCollect (dictInsert code d acc) rest
      | none => acc
    | none => ncslCollect acc rest

/-- `merged.update(dates)` on insertion-ordered association lists. -/
def dictUpdate (base : List (String × String)) : List (String × String) → List (String × String)
  | [] => base
  | (k, v) :: t => dictUpdate (dictInsert k v base) t

/-- The `ALL_DEFAULT_PRIMARY_DATES` constant of `update_race_data.py`. -/
def ALL_DEFAULT_PRIMARY_DATES : List (String × String) :=
  [("AL", "May 19, 2026"), ("AK", "August 18, 2026"), ("AR", "March 3, 2026"),
   ("CO", "June 30, 2026"), ("DE", "September 10, 2026"), ("GA", "May 19, 2026"),
   ("ID", "May 19, 2026"), ("IL", "March 17, 2026"), ("IA", "June 2, 2026"),
   ("KS", "August 4, 2026"), ("KY", "May 19, 2026"), ("LA", "November 3, 2026"),
   ("ME", "June 9, 2026"), ("MA", "September 8, 2026"), ("MI", "August 4, 2026"),
   ("MN", "August 11, 2026"), ("MS", "March 10, 2026"), ("MT", "June 2, 2026"),
   ("NE", "May 12, 2026"), ("NH", "September 8, 2026"), ("NJ", "June 2, 2026"),
   ("NM", "June 2, 2026"), ("NC", "March 3, 2026"), ("OH", "May 5, 2026"),
   ("OK", "June 16, 2026"), ("OR", "May 19, 2026"), ("RI", "September 8, 2026"),
   ("SC", "June 9, 2026"), ("SD", "June 2, 2026"), ("TN", "August 6, 2026"),
   ("TX", "March 3, 2026"), ("VA", "June 16, 2026"), ("WV", "May 12, 2026"),
   ("WY", "August 18, 2026")]

/-- `parse_ncsl_primary_dates` of `update_race_data.py`: overlay the dates
collected from the fetched page (`none` = `fetch_text` raised) on the
hardcoded fallback table. -/
def parse_ncsl_primary_dates (fetch : Option String) : List (String × String) :=
  let dates :=
    match fetch with
    | none => []
    | some raw => ncslCollect [] (ncslFindall raw)
  dictUpdate ALL_DEFAULT_PRIMARY_DATES dates

/-- `str(a or b or ... or "")`: first non-empty present string, else `""`. -/
def firstTruthyStr : List (Option String) → String
  | [] => ""
  | o :: t =>
    match o with
    | some s => if s = "" then firstTruthyStr t else s
    | none => firstTruthyStr t

/-- `a or b or ...` on optional numbers: `None` and `0` are falsy. -/
def firstTruthyNum : List (Option PyNum) → Option PyNum
  | [] => none
  | o :: t =>
    match o with
    | some x => if pnEqB x ⟨0, 1⟩ then firstTruthyNum t else some x
    | none => firstTruthyNum t

/-- One Polymarket listing, with the fields the source reads.
`outcomePrices` stands for the JSON-decoded price array (the source accepts
it as a JSON string or a list; both decode to the same array). -/
structure PolyMarket where
  question : Option String
  title : Option String
  liquidity : Option PyNum
  slug : Option String
  outcomePrices : Option (List PyNum)
  lastTradePrice : Option PyNum
deriving DecidableEq

/-- The title used for filtering: `str(question or title or "")`. -/
def polyTitle (m : PolyMarket) : String := firstTruthyStr [m.question, m.title]

/-- The Polymarket filter: lowercase title must contain `senate`, the state
name, and `primary` or `nomination`. -/
def polyPred (state_name : String) (m : PolyMarket) : Bool :=
  let lo := lowerStr (polyTitle m)
  strHas lo.data "senate".data && strHas lo.data (lowerStr state_name).data &&
    (strHas lo.data "primary".data || strHas lo.data "nomination".data)

/-- `float(x.get("liquidity", 0) or 0)`. -/
def liqOf (m : PolyMarket) : PyNum := m.liquidity.getD ⟨0, 1⟩

/-- Liquidity comparison for the ranking sort. -/
def polyLiqLt (a b : PolyMarket) : Bool := pnLtB (liqOf a) (liqOf b)

/-- One step of the stable descending sort by liquidity
(`sorted(..., key=liquidity, reverse=True)`). -/
def insertDescPM (x : PolyMarket) : List PolyMarket → List PolyMarket
  | [] => [x]
  | h :: t => if polyLiqLt x h then h :: insertDescPM x t else x :: h :: t

/-- `sorted(candidates, key=liquidity, reverse=True)`. -/
def sortDescPM (l : List PolyMarket) : List PolyMarket := List.foldr insertDescPM [] l

/-- `extract_poly_price` of `update_race_data.py`. -/
def extract_poly_price (m : PolyMarket) : Option PyNum :=
  match m.outcomePrices with
  | some (p :: _) => maybe_parse_price (some p)
  | some [] => maybe_parse_price m.lastTradePrice
  | none => maybe_parse_price m.lastTradePrice

/-- A normalized market record as emitted by both market matchers. -/
structure MarketRec where
  title : String
  yes_price : Option PyNum
  url : String
deriving DecidableEq

/-- The output record built for one kept Polymarket listing. -/
def polyRec (m : PolyMarket) : MarketRec :=
  { title := firstTruthyStr [m.question, m.title, some "Market"],
    yes_price := extract_poly_price m,
    url :=
      match m.slug with
      | some s => if s = "" then "https://polymarket.com" else "https://polymarket.com/event/" ++ s
      | none => "https://polymarket.com" }

/-- `get_polymarket` of `update_race_data.py`: the bulk-listing fetch outcome
is the argument (`none` = the request or JSON decode raised, yielding `[]`). -/
def get_polymarket (state_name : String) (fetch : Option (List PolyMarket)) : List MarketRec :=
  match fetch with
  | none => []
  | some markets => ((sortDescPM (markets.filter (polyPred state_name))).take 4).map polyRec

/-- One Kalshi listing, with the fields the source reads. -/
structure KalshiMarket where
  title : Option String
  subtitle : Option String
  ticker : Option String
  yes_ask : Option PyNum
  yes_bid : Option PyNum
  last_price : Option PyNum
deriving DecidableEq

/-- The title used for filtering: `str(title or subtitle or ticker or "")`. -/
def kalshiTitle (m : KalshiMarket) : String :=
  firstTruthyStr [m.title, m.subtitle, m.ticker]

/-- The Kalshi filter: lowercase title must contain `senate`, the state name,
and `primary` or `nomination`. -/
def kalshiPred (state_name : String) (m : KalshiMarket) : Bool :=
  let lo := lowerStr (kalshiTitle m)
  strHas lo.data "senate".data && strHas lo.data (lowerStr state_name).data &&
    (strHas lo.data "primary".data || strHas lo.data "nomination".data)

/-- The output record built for one kept Kalshi listing. -/
def kalshiRec (m : KalshiMarket) : MarketRec :=
  let ticker := firstTruthyStr [m.ticker]
  { title := firstTruthyStr [m.title, m.subtitle, m.ticker, some "Market"],
    yes_price := maybe_parse_price (firstTruthyNum [m.yes_ask, m.yes_bid, m.last_price]),
    url := if ticker = "" then "https://kalshi.com/markets" else "https://kalshi.com/markets/" ++ ticker }

/-- `get_kalshi` of `update_race_data.py`: one argument entry per endpoint
(`none` = that endpoint raised or returned a non-list shape).  The first four
filtered listings of the first endpoint producing any output are returned. -/
def get_kalshi (state_name : String) : List (Option (List KalshiMarket)) → List MarketRec
  | [] => []
  | none :: rest => get_kalshi state_name rest
  | some markets :: rest =>
    let out := ((markets.filter (kalshiPred state_name)).take 4).map kalshiRec
    if out = [] then get_kalshi state_name rest else out

/-- One storyline record as produced by `parse_rss` (whose network/XML layer
is modelled by passing its per-feed results to `get_storylines`). -/
structure Story where
  point : String
  date : String
  source : String
  url : String
deriving DecidableEq

/-- The deduplication key: `item["point"].lower()`. -/
def storyKey (s : Story) : String := lowerStr s.point

/-- The inner item loop of `get_storylines`: skip seen keys, stop once four
records are collected. -/
def storyFeed : List String → List Story → List Story → List String × List Story
  | seen, out, [] => (seen, out)
  | seen, out, item :: rest =>
    let key := storyKey item
    if seen.contains key then storyFeed seen out rest
    else
      let out2 := out ++ [item]
      if 4 ≤ out2.length then (key :: seen, out2) else storyFeed (key :: seen) out2 rest

/-- The outer feed loop of `get_storylines`: a failed feed is skipped, and
the loop stops once four records are collected. -/
def storyFeeds : List String → List Story → List (Option (List Story)) → List Story
  | _, out, [] => out
  | seen, out, none :: rest => storyFeeds seen out rest
  | seen, out, some items :: rest =>
    let p := storyFeed seen out items
    if 4 ≤ p.2.length then p.2 else storyFeeds p.1 p.2 rest

/-- UTF-8 bytes of a code point. -/
def utf8Bytes (n : Nat) : List Nat :=
  if n < 128 then [n]
  else if n < 2048 then [192 + n / 64, 128 + n % 64]
  else if n < 65536 then [224 + n / 4096, 128 + (n / 64) % 64, 128 + n % 64]
  else [240 + n / 262144, 128 + (n / 4096) % 64, 128 + (n / 64) % 64, 128 + n % 64]

/-- Uppercase hexadecimal digit. -/
def hexDigitChar (n : Nat) : Char := if n < 10 then Char.ofNat (48 + n) else Char.ofNat (55 + n)

/-- `urllib.parse.quote` of one character (default `safe='/'`). -/
def quoteChar (c : Char) : List Char :=
  if c.isAlpha || c.isDigit || c = '_' || c = '.' || c = '-' || c = '~' || c = '/' then [c]
  else (utf8Bytes c.toNat).foldr (fun b acc => '%' :: hexDigitChar (b / 16) :: hexDigitChar (b % 16) :: acc) []

/-- `urllib.parse.quote` (default `safe='/'`). -/
def pyQuote (s : String) : String := ⟨s.data.foldr (fun c acc => quoteChar c ++ acc) []⟩

/-- The static fallback records of `get_storylines`. -/
def fallbackStories (state_name : String) : List Story :=
  let query := pyQuote (state_name ++ " Senate race 2026 primary")
  [⟨"Track the latest " ++ state_name ++ " Senate primary coverage (Google News).", "",
    "Google News", "https://news.google.com/search?q=" ++ query ++ "&hl=en-US&gl=US&ceid=US%3Aen"⟩,
   ⟨"Track the latest " ++ state_name ++ " Senate primary coverage (Bing News).", "",
    "Bing News", "https://www.bing.com/news/search?q=" ++ query⟩,
   ⟨"Review campaign reporting and updates for the " ++ state_name ++ " race.", "",
    "News search", "https://duckduckgo.com/?q=" ++ query⟩]

/-- `get_storylines` of `update_race_data.py`: each argument entry is one
feed's `parse_rss` result (`none` = that feed's fetch/parse raised). -/
def get_storylines (state_name : String) (feeds : List (Option (List Story))) : List Story :=
  let out := storyFeeds [] [] feeds
  if out = [] then fallbackStories state_name else out

/-! ## Theorems -/

theorem pnVal_mk (n : Int) (d : Nat) : pnVal ⟨n, d⟩ = (n : ℚ) / (d : ℚ) := rfl

theorem pnLtB_iff {a b : PyNum} (ha : 0 < a.den) (hb : 0 < b.den) :
    pnLtB a b = true ↔ pnVal a < pnVal b := by
  unfold pnLtB pnVal
  rw [decide_eq_true_iff]
  rw [div_lt_div_iff (by exact_mod_cast ha) (by exact_mod_cast hb)]
  constructor
  · intro h; exact_mod_cast h
  · intro h; exact_mod_cast h

theorem pnLeB_iff {a b : PyNum} (ha : 0 < a.den) (hb : 0 < b.den) :
    pnLeB a b = true ↔ pnVal a ≤ pnVal b := by
  unfold pnLeB pnVal
  rw [decide_eq_true_iff]
  rw [div_le_div_iff (by exact_mod_cast ha) (by exact_mod_cast hb)]
  constructor
  · intro h; exact_mod_cast h
  · intro h; exact_mod_cast h

theorem pnLtB_false_iff {a b : PyNum} (ha : 0 < a.den) (hb : 0 < b.den) :
    pnLtB a b = false ↔ pnVal b ≤ pnVal a := by
  rw [← Bool.not_eq_true, pnLtB_iff ha hb, not_lt]

theorem afpScan_none_iff (cs : List Char) :
    afpScan cs = none ↔ ∀ c ∈ cs, c.isDigit = false := by
  induction cs with
  | nil => simp [afpScan]
  | cons c t ih =>
    cases hc : c.isDigit with
    | true => simp [afpScan, hc]
    | false => simp [afpScan, hc, ih]

theorem afpScan_skip (pre post : List Char) (h : ∀ c ∈ pre, c.isDigit = false) :
    afpScan (pre ++ post) = afpScan post := by
  induction pre with
  | nil => rfl
  | cons c t ih =>
    have hc := h c (by simp)
    simp only [List.cons_append, afpScan, hc, Bool.false_eq_true, if_false]
    exact ih (fun c hm => h c (by simp [hm]))

/-- Claim C2: `as_float_percent` returns the value of the first numeric token
(the regex group `[0-9]+(?:\.[0-9]+)?` starting at the first digit) and
returns `None` exactly for strings containing no digit — which is how a
"unavailable" value later surfaces as an unknown spread. -/
theorem claim_C2 (s : String) :
    (as_float_percent s = none ↔ ∀ c ∈ s.data, c.isDigit = false) ∧
    (∀ (pre ds : List Char) (d : Char), s.data = pre ++ d :: ds →
      (∀ c ∈ pre, c.isDigit = false) → d.isDigit = true →
      as_float_percent s = some (tokenRat (d :: ds))) := by
  constructor
  · exact afpScan_none_iff s.data
  · intro pre ds d hsplit hpre hd
    unfold as_float_percent
    rw [hsplit, afpScan_skip pre (d :: ds) hpre]
    simp [afpScan, hd]

/-- Witness for C2: on `"abc 12.5%"` the first number `12.5` is returned; a
digitless string gives `None`. -/
theorem claim_C2_witness :
    as_float_percent "abc 12.5%" = some ⟨125, 10⟩ ∧ as_float_percent "n/a" = none := by
  constructor
  · have h := (claim_C2 "abc 12.5%").2 "abc ".data "2.5%".data '1' (by decide) (by decide) (by decide)
    rw [h]; decide
  · exact (claim_C2 "n/a").1.mpr (by decide)

/-- Claim C3: `maybe_parse_price` passes `[0, 1]` values through, divides
`(1, 100]` values by 100, maps negatives to 0 and values above 100 to 1.
The hypotheses are the source's own float comparisons; the conclusions are
about exact float values. -/
theorem claim_C3 (x : PyNum) (hden : 0 < x.den) :
    (pnLeB ⟨0, 1⟩ x = true → pnLeB x ⟨1, 1⟩ = true →
      ∃ y, maybe_parse_price (some x) = some y ∧ pnVal y = pnVal x) ∧
    (pnLtB ⟨1, 1⟩ x = true → pnLeB x ⟨100, 1⟩ = true →
      ∃ y, maybe_parse_price (some x) = some y ∧ pnVal y = pnVal x / 100) ∧
    (pnLtB x ⟨0, 1⟩ = true → ∃ y, maybe_parse_price (some x) = some y ∧ pnVal y = 0) ∧
    (pnLtB ⟨100, 1⟩ x = true → ∃ y, maybe_parse_price (some x) = some y ∧ pnVal y = 1) := by
  have h1 : (0:Nat) < 1 := by decide
  have hv0 : pnVal ⟨0, 1⟩ = 0 := by norm_num [pnVal_mk]
  have hv1 : pnVal ⟨1, 1⟩ = 1 := by norm_num [pnVal_mk]
  have hv100 : pnVal ⟨100, 1⟩ = 100 := by norm_num [pnVal_mk]
  have hdiv : pnVal ⟨x.num, x.den * 100⟩ = pnVal x / 100 := by
    rw [pnVal_mk, pnVal]
    push_cast
    rw [div_div]
  have hdivden : 0 < x.den * 100 := by positivity
  refine ⟨?_, ?_, ?_, ?_⟩
  · intro h0 h1x
    have hle0 : (0:ℚ) ≤ pnVal x := by
      have := (pnLeB_iff h1 hden).mp h0; rwa [hv0] at this
    have hle1 : pnVal x ≤ 1 := by
      have := (pnLeB_iff hden h1).mp h1x; rwa [hv1] at this
    have hngt : pnLtB ⟨1, 1⟩ x = false := by
      rw [pnLtB_false_iff h1 hden, hv1]; exact hle1
    unfold maybe_parse_price pyMin pyMax
    simp only [hngt, Bool.false_eq_true, if_false]
    cases hlt1 : pnLtB x ⟨1, 1⟩ with
    | true =>
      simp only [if_true]
      cases hgt0 : pnLtB ⟨0, 1⟩ x with
      | true => exact ⟨x, by simp, rfl⟩
      | false =>
        have : pnVal x ≤ 0 := by
          have := (pnLtB_false_iff h1 hden).mp hgt0; rwa [hv0] at this
        exact ⟨⟨0, 1⟩, by simp, by rw [hv0]; exact (le_antisymm this hle0).symm⟩
    | false =>
      have hxe1 : pnVal x = 1 := by
        have := (pnLtB_false_iff hden h1).mp hlt1; rw [hv1] at this
        exact le_antisymm hle1 this
      simp only [Bool.false_eq_true, if_false]
      have : pnLtB ⟨0, 1⟩ (⟨1, 1⟩ : PyNum) = true := by decide
      simp only [this, if_true]
      exact ⟨⟨1, 1⟩, rfl, by rw [hv1, hxe1]⟩
  · intro hgt hle
    have hgt1 : (1:ℚ) < pnVal x := by
      have := (pnLtB_iff h1 hden).mp hgt; rwa [hv1] at this
    have hle100 : pnVal x ≤ 100 := by
      have := (pnLeB_iff hden h1).mp hle; rwa [hv100] at this
    unfold maybe_parse_price pyMin pyMax
    simp only [hgt, if_true]
    have hq : (0:ℚ) < 1 / 100 := by norm_num
    have hgt0 : pnLtB ⟨0, 1⟩ (⟨x.num, x.den * 100⟩ : PyNum) = true := by
      rw [pnLtB_iff h1 hdivden, hv0, hdiv]
      have : (0:ℚ) < pnVal x := lt_trans one_pos hgt1
      positivity
    cases hlt1 : pnLtB (⟨x.num, x.den * 100⟩ : PyNum) ⟨1, 1⟩ with
    | true =>
      simp only [if_true, hgt0]
      exact ⟨⟨x.num, x.den * 100⟩, by simp, hdiv⟩
    | false =>
      have : (1:ℚ) ≤ pnVal x / 100 := by
        have := (pnLtB_false_iff hdivden h1).mp hlt1; rw [hv1, hdiv] at this; exact this
      have hx100 : pnVal x = 100 := by
        have : (100:ℚ) ≤ pnVal x := by linarith
        exact le_antisymm hle100 this
      simp only [Bool.false_eq_true, if_false]
      have ht : pnLtB ⟨0, 1⟩ (⟨1, 1⟩ : PyNum) = true := by decide
      simp only [ht, if_true]
      exact ⟨⟨1, 1⟩, rfl, by rw [hv1, hx100]; norm_num⟩
  · intro hneg
    have hlt0 : pnVal x < 0 := by
      have := (pnLtB_iff hden h1).mp hneg; rwa [hv0] at this
    have hngt : pnLtB ⟨1, 1⟩ x = false := by
      rw [pnLtB_false_iff h1 hden, hv1]; linarith
    unfold maybe_parse_price pyMin pyMax
    simp only [hngt, Bool.false_eq_true, if_false]
    have hlt1 : pnLtB x ⟨1, 1⟩ = true := by
      rw [pnLtB_iff hden h1, hv1]; linarith
    simp only [hlt1, if_true]
    have hgt0 : pnLtB ⟨0, 1⟩ x = false := by
      rw [pnLtB_false_iff h1 hden, hv0]; linarith
    simp only [hgt0, Bool.false_eq_true, if_false]
    exact ⟨⟨0, 1⟩, rfl, hv0⟩
  · intro hbig
    have hgt100 : (100:ℚ) < pnVal x := by
      have := (pnLtB_iff h1 hden).mp hbig; rwa [hv100] at this
    have hgt : pnLtB ⟨1, 1⟩ x = true := by
      rw [pnLtB_iff h1 hden, hv1]; linarith
    unfold maybe_parse_price pyMin pyMax
    simp only [hgt, if_true]
    have hlt1 : pnLtB (⟨x.num, x.den * 100⟩ : PyNum) ⟨1, 1⟩ = false := by
      rw [pnLtB_false_iff hdivden h1, hv1, hdiv, le_div_iff (by norm_num : (0:ℚ) < 100)]
      linarith
    simp only [hlt1, Bool.false_eq_true, if_false]
    have ht : pnLtB ⟨0, 1⟩ (⟨1, 1⟩ : PyNum) = true := by decide
    simp only [ht, if_true]
    exact ⟨⟨1, 1⟩, rfl, hv1⟩

/-- Witness for C3 at 0.5, 50, -3 and 250. -/
theorem claim_C3_witness :
    (∃ y, maybe_parse_price (some ⟨1, 2⟩) = some y ∧ pnVal y = pnVal ⟨1, 2⟩) ∧
    (∃ y, maybe_parse_price (some ⟨50, 1⟩) = some y ∧ pnVal y = pnVal ⟨50, 1⟩ / 100) ∧
    (∃ y, maybe_parse_price (some ⟨-3, 1⟩) = some y ∧ pnVal y = 0) ∧
    (∃ y, maybe_parse_price (some ⟨250, 1⟩) = some y ∧ pnVal y = 1) :=
  ⟨(claim_C3 ⟨1, 2⟩ (by decide)).1 (by decide) (by decide),
   (claim_C3 ⟨50, 1⟩ (by decide)).2.1 (by decide) (by decide),
   (claim_C3 ⟨-3, 1⟩ (by decide)).2.2.1 (by decide),
   (claim_C3 ⟨250, 1⟩ (by decide)).2.2.2 (by decide)⟩

theorem rowsLoop_mem {f : List Cell → Except Unit (Option PollRow)} :
    ∀ {l rows r}, rowsLoop f l = some rows → r ∈ rows →
      ∃ tds ∈ l, f tds = Except.ok (some r) := by
  intro l
  induction l with
  | nil =>
    intro rows r h hr
    simp only [rowsLoop] at h
    injection h with h2
    rw [← h2] at hr
    simp at hr
  | cons tds rest ih =>
    intro rows r h hr
    simp only [rowsLoop] at h
    cases hf : f tds with
    | error e => rw [hf] at h; exact absurd h (by simp)
    | ok o =>
      cases o with
      | none =>
        rw [hf] at h
        obtain ⟨t2, ht2, hft⟩ := ih h hr
        exact ⟨t2, by simp [ht2], hft⟩
      | some r0 =>
        rw [hf] at h
        cases hrest : rowsLoop f rest with
        | none => rw [hrest] at h; exact absurd h (by simp)
        | some rows2 =>
          rw [hrest] at h
          simp only [Option.map_some] at h
          injection h with h2
          rw [← h2] at hr
          rcases List.mem_cons.mp hr with rfl | hr2
          · exact ⟨tds, by simp, hf⟩
          · obtain ⟨t2, ht2, hft⟩ := ih hrest hr2
            exact ⟨t2, by simp [ht2], hft⟩

theorem rowToPoll_ok_some {notes : List (String × String)} {headers ch ordered : List String}
    {idx : List Nat} {race_id : String} {tds : List Cell} {r : PollRow}
    (h : rowToPoll notes headers ch ordered idx race_id tds = Except.ok (some r)) :
    4 + ch.length ≤ tds.length ∧ clean_text (tds.headD defCell).text ≠ "" ∧
    r.pollster = normPollster (clean_text (tds.headD defCell).text) ∧
    r.values.length = idx.length := by
  unfold rowToPoll at h
  by_cases h1 : tds.length < 4 + ch.length
  · rw [if_pos h1] at h; exact absurd h (by simp)
  · rw [if_neg h1] at h
    by_cases h2 : clean_text (tds.headD defCell).text = ""
    · rw [if_pos h2] at h; exact absurd h (by simp)
    · rw [if_neg h2] at h
      by_cases h3 : race_id = "al1_house_gop" ∧
          strHas (String.intercalate " " headers).data "Heather Moore".data = true
      · rw [if_pos h3] at h; exact absurd h (by simp)
      · rw [if_neg h3] at h
        cases hsp : rowSpread ordered (rowValues ch idx tds) with
        | none => rw [hsp] at h; exact absurd h (by simp)
        | some sp =>
          rw [hsp] at h
          injection h with h4
          injection h4 with h5
          refine ⟨Nat.le_of_not_lt h1, h2, ?_, ?_⟩
          · rw [← h5]
          · rw [← h5]
            simp [rowValues]

theorem parse_table_some {table : Table} {notes : List (String × String)}
    {target_candidates : List String} {race_id : String} {P : ParsedTable}
    (h : parse_table table notes target_candidates race_id = some P) :
    P.headers = tableOrdered table target_candidates ∧
    ∃ rows, rowsLoop
        (rowToPoll notes (tableHeadersClean table) (tableCH table)
          (tableOrdered table target_candidates) (tableIdx table target_candidates) race_id)
        table.dataRows = some rows ∧ P.rows = rows.take 8 := by
  unfold parse_table at h
  cases hr : rowsLoop
      (rowToPoll notes (tableHeadersClean table) (tableCH table)
        (tableOrdered table target_candidates) (tableIdx table target_candidates) race_id)
      table.dataRows with
  | none => rw [hr] at h; exact absurd h (by simp)
  | some rows =>
    rw [hr] at h
    obtain rfl : (⟨tableOrdered table target_candidates, rows.take 8⟩ : ParsedTable) = P := by
      injection h
    exact ⟨rfl, rows, rfl, rfl⟩

/-- Claim C10 (amended): every row emitted by `parse_table` has a values list
exactly as long as the returned headers list, and originates from a source
row with at least `4 + |candidate headers|` cells whose cleaned first cell is
non-empty; source rows failing either check are skipped entirely.  (The
emitted pollster string itself is the first cell after stripping a trailing
`(R)` marker, and so can still be empty — see the counterexample.) -/
theorem claim_C10_amended (table : Table) (notes : List (String × String))
    (target_candidates : List String) (race_id : String) (P : ParsedTable)
    (hP : parse_table table notes target_candidates race_id = some P) :
    (∀ r ∈ P.rows, r.values.length = P.headers.length) ∧
    (∀ r ∈ P.rows, ∃ tds ∈ table.dataRows,
      4 + (tableCH table).length ≤ tds.length ∧
      clean_text (tds.headD defCell).text ≠ "" ∧
      r.pollster = normPollster (clean_text (tds.headD defCell).text)) ∧
    (∀ tds : List Cell,
      tds.length < 4 + (tableCH table).length ∨ clean_text (tds.headD defCell).text = "" →
      rowToPoll notes (tableHeadersClean table) (tableCH table)
        (tableOrdered table target_candidates) (tableIdx table target_candidates) race_id tds =
        Except.ok none) := by
  obtain ⟨hh, rows, hrows, hPr⟩ := parse_table_some hP
  have hmem : ∀ r ∈ P.rows, ∃ tds ∈ table.dataRows,
      rowToPoll notes (tableHeadersClean table) (tableCH table)
        (tableOrdered table target_candidates) (tableIdx table target_candidates) race_id tds =
        Except.ok (some r) := by
    intro r hr
    rw [hPr] at hr
    exact rowsLoop_mem hrows (List.take_subset 8 rows hr)
  refine ⟨?_, ?_, ?_⟩
  · intro r hr
    obtain ⟨tds, _, hok⟩ := hmem r hr
    have := (rowToPoll_ok_some hok).2.2.2
    rw [this, hh]
    unfold tableIdx
    simp [List.length_map]
  · intro r hr
    obtain ⟨tds, htds, hok⟩ := hmem r hr
    obtain ⟨hlen, hne, hpol, _⟩ := rowToPoll_ok_some hok
    exact ⟨tds, htds, hlen, hne, hpol⟩
  · intro tds hbad
    unfold rowToPoll
    rcases hbad with hlt | hemp
    · rw [if_pos hlt]
    · by_cases h1 : tds.length < 4 + (tableCH table).length
      · rw [if_pos h1]
      · rw [if_neg h1, if_pos hemp]

/-- Counterexample for C10: a source row whose first cell is exactly `(R)`
passes the non-empty check, but the emitted pollster string (the cell with a
trailing `(R)` marker stripped) is empty. -/
theorem claim_C10_counterexample :
    parse_table
        ⟨"wikitable", ["H1", "H2", "H3", "H4", "X"],
          [[⟨"(R)", none⟩, ⟨"d", none⟩, ⟨"s", none⟩, ⟨"m", none⟩, ⟨"42", none⟩]]⟩
        [] [] "r" =
      some ⟨["X"], [⟨"", "", "d", "s", ["42"], "—"⟩]⟩ ∧
    (⟨"", "", "d", "s", ["42"], "—"⟩ : PollRow).pollster = "" := by
  constructor
  · decide
  · rfl

/-- Witness for the amended C10 at a concrete table. -/
theorem claim_C10_witness :
    ((⟨"Foo", "", "d", "s", ["42"], "—"⟩ : PollRow).values.length =
      (⟨["X"], [⟨"Foo", "", "d", "s", ["42"], "—"⟩]⟩ : ParsedTable).headers.length) ∧
    (∃ tds ∈ (⟨"wikitable", ["H1", "H2", "H3", "H4", "X"],
          [[⟨"Foo", none⟩, ⟨"d", none⟩, ⟨"s", none⟩, ⟨"m", none⟩, ⟨"42", none⟩]]⟩ : Table).dataRows,
      4 + (tableCH ⟨"wikitable", ["H1", "H2", "H3", "H4", "X"],
          [[⟨"Foo", none⟩, ⟨"d", none⟩, ⟨"s", none⟩, ⟨"m", none⟩, ⟨"42", none⟩]]⟩).length ≤ tds.length ∧
      clean_text (tds.headD defCell).text ≠ "" ∧
      (⟨"Foo", "", "d", "s", ["42"], "—"⟩ : PollRow).pollster =
        normPollster (clean_text (tds.headD defCell).text)) := by
  have h := claim_C10_amended
    ⟨"wikitable", ["H1", "H2", "H3", "H4", "X"],
      [[⟨"Foo", none⟩, ⟨"d", none⟩, ⟨"s", none⟩, ⟨"m", none⟩, ⟨"42", none⟩]]⟩
    [] [] "r" ⟨["X"], [⟨"Foo", "", "d", "s", ["42"], "—"⟩]⟩ (by decide)
  exact ⟨h.1 _ (by decide), h.2.1 _ (by decide)⟩

/-- Counterexample for C1: on a table whose first row has exactly the five
headers of the spec's example, the candidate columns are taken from
`headers[4:]` — which here starts at `Other` — so no candidate column is
detected at all: the single emitted row has an empty values list and the
unknown spread `—`, not `["40", "35"]` and `A +5`. -/
theorem claim_C1_counterexample :
    parse_table
        ⟨"wikitable", ["Poll source", "Date(s)", "A", "B", "Other"],
          [[⟨"Pollster X", none⟩, ⟨"1/1-1/2", none⟩, ⟨"500 LV", none⟩, ⟨"40", none⟩,
            ⟨"35", none⟩, ⟨"5", none⟩]]⟩
        [] ["A", "B"] "us_senate_gop" =
      some ⟨[], [⟨"Pollster X", "", "1/1-1/2", "500 LV", [], "—"⟩]⟩ ∧
    ([] : List String) ≠ ["40", "35"] ∧ ("—" : String) ≠ "A +5" := by
  refine ⟨by decide, by decide, by decide⟩

/-- Claim C1 (amended): the example needs four leading non-candidate columns
(as on the scraped pages: poll source, dates, sample, margin of error) before
the candidate columns.  With header
`["Poll source","Date(s)","Sample size","Margin of error","A","B","Other"]`
and one data row `["Pollster X","1/1-1/2","500 LV","± 4%","40","35","5"]`,
`parse_table` yields exactly one row with values `["40","35"]` and spread
`A +5`. -/
theorem claim_C1_amended :
    parse_table
        ⟨"wikitable",
          ["Poll source", "Date(s)", "Sample size", "Margin of error", "A", "B", "Other"],
          [[⟨"Pollster X", none⟩, ⟨"1/1-1/2", none⟩, ⟨"500 LV", none⟩, ⟨"± 4%", none⟩,
            ⟨"40", none⟩, ⟨"35", none⟩, ⟨"5", none⟩]]⟩
        [] ["A", "B"] "us_senate_gop" =
      some ⟨["A", "B"], [⟨"Pollster X", "", "1/1-1/2", "500 LV", ["40", "35"], "A +5"⟩]⟩ := by
  decide

/-- Counterexample for C5: the first table in document order whose header
contains the required token is not returned when its `class` attribute lacks
`wikitable` — the xpath `//table[contains(@class,'wikitable')]` skips it. -/
theorem claim_C5_counterexample :
    find_table [⟨"plain", ["Poll source"], []⟩, ⟨"wikitable", ["Poll source"], []⟩]
        ["Poll source"] =
      some ⟨"wikitable", ["Poll source"], []⟩ ∧
    strHas (headerText ⟨"plain", ["Poll source"], []⟩).data "Poll source".data = true ∧
    (⟨"wikitable", ["Poll source"], []⟩ : Table) ≠ ⟨"plain", ["Poll source"], []⟩ := by
  refine ⟨by decide, by decide, by decide⟩

/-- Claim C5 (amended): `find_table` returns the first table in document
order whose class contains `wikitable` and whose joined first-row header text
contains every required token (in any order, extra columns allowed), and
returns `None` exactly when no table qualifies.  In particular a unique
qualifying table is selected and no other. -/
theorem claim_C5_amended (doc : List Table) (must : List String) :
    (find_table doc must = none ↔ ∀ t ∈ doc, tableMatch must t = false) ∧
    (∀ t, find_table doc must = some t →
      tableMatch must t = true ∧
      ∃ i, doc.get? i = some t ∧
        ∀ j < i, ∀ u, doc.get? j = some u → tableMatch must u = false) := by
  constructor
  · rw [find_table, List.find?_eq_none]
    constructor
    · intro h t ht
      have := h t ht
      simpa using this
    · intro h t ht
      simp [h t ht]
  · intro t
    induction doc with
    | nil => intro h; simp [find_table] at h
    | cons d rest ih =>
      intro h
      cases hd : tableMatch must d with
      | true =>
        rw [find_table, List.find?_cons_of_pos _ hd] at h
        injection h with h2
        subst h2
        exact ⟨hd, 0, rfl, by omega⟩
      | false =>
        rw [find_table, List.find?_cons_of_neg _ (by simp [hd])] at h
        obtain ⟨hm, i, hi, hj⟩ := ih h
        refine ⟨hm, i + 1, by simpa using hi, ?_⟩
        intro j hji u hu
        cases j with
        | zero =>
          simp only [List.get?] at hu
          injection hu with h3
          rw [← h3]
          exact hd
        | succ j2 =>
          exact hj j2 (by omega) u (by simpa using hu)

/-- Witness for the amended C5 at a two-table document. -/
theorem claim_C5_witness :
    tableMatch ["Poll source"] ⟨"wikitable", ["Poll source"], []⟩ = true ∧
    ∃ i, ([⟨"plain", ["Poll source"], []⟩, ⟨"wikitable", ["Poll source"], []⟩] : List Table).get? i =
        some ⟨"wikitable", ["Poll source"], []⟩ ∧
      ∀ j < i, ∀ u,
        ([⟨"plain", ["Poll source"], []⟩, ⟨"wikitable", ["Poll source"], []⟩] : List Table).get? j =
          some u → tableMatch ["Poll source"] u = false :=
  (claim_C5_amended [⟨"plain", ["Poll source"], []⟩, ⟨"wikitable", ["Poll source"], []⟩]
    ["Poll source"]).2 ⟨"wikitable", ["Poll source"], []⟩ (by decide)

/-- Claim C4: when the ratings fetch raises, and when parsing succeeds but
yields fewer than 4 entries, `parse_cook_swing` returns exactly the hardcoded
`DEFAULT_SWING` table — the same state codes mapped to the same state names
and rating labels. -/
theorem claim_C4 :
    parse_cook_swing none = DEFAULT_SWING ∧
    ∀ raw, (cookFromText raw).length < 4 → parse_cook_swing (some raw) = DEFAULT_SWING := by
  refine ⟨rfl, ?_⟩
  intro raw h
  simp only [parse_cook_swing]
  rw [if_neg (by omega)]

/-- Witness for C4: an empty page parses to zero entries and falls back. -/
theorem claim_C4_witness :
    (cookFromText "").length < 4 ∧ parse_cook_swing (some "") = DEFAULT_SWING :=
  ⟨by decide, claim_C4.2 "" (by decide)⟩

theorem lookup_consStr {α : Type} (q k : String) (v : α) (t : List (String × α)) :
    List.lookup q ((k, v) :: t) = if q = k then some v else List.lookup q t := by
  by_cases h : q = k
  · subst h; simp [List.lookup]
  · have hb : (q == k) = false := beq_eq_false_iff_ne.mpr h
    simp [List.lookup, hb, h]

theorem lookup_some_mem_keys {α : Type} (k : String) (v : α) :
    ∀ t : List (String × α), List.lookup k t = some v → k ∈ t.map Prod.fst := by
  intro t
  induction t with
  | nil => intro h; simp [List.lookup] at h
  | cons p s ih =>
    obtain ⟨k2, v2⟩ := p
    intro h
    rw [lookup_consStr] at h
    by_cases hk : k = k2
    · simp [hk]
    · rw [if_neg hk] at h
      simp [ih h]

theorem lookup_dictInsert {α : Type} (k : String) (v : α) (l : List (String × α)) (q : String) :
    List.lookup q (dictInsert k v l) = if q = k then some v else List.lookup q l := by
  induction l with
  | nil =>
    simp only [dictInsert]
    rw [lookup_consStr]
  | cons p t ih =>
    obtain ⟨k2, v2⟩ := p
    by_cases h2 : k2 = k
    · subst h2
      have hd : dictInsert k2 v ((k2, v2) :: t) = (k2, v) :: t := by simp [dictInsert]
      rw [hd, lookup_consStr, lookup_consStr]
      by_cases h : q = k2
      · simp [h]
      · simp [h]
    · simp only [dictInsert, if_neg h2]
      rw [lookup_consStr, ih, lookup_consStr]
      by_cases h : q = k2
      · have hqk : ¬ q = k := by rw [h]; exact h2
        rw [if_pos h, if_neg hqk, if_pos h]
      · rw [if_neg h]
        by_cases hk : q = k
        · rw [if_pos hk, if_pos hk]
        · rw [if_neg hk, if_neg hk, if_neg h]

theorem dictInsert_keys {α : Type} (k : String) (v : α) (l : List (String × α)) :
    (dictInsert k v l).map Prod.fst =
      if k ∈ l.map Prod.fst then l.map Prod.fst else l.map Prod.fst ++ [k] := by
  induction l with
  | nil => simp [dictInsert]
  | cons p t ih =>
    obtain ⟨k2, v2⟩ := p
    by_cases h2 : k2 = k
    · subst h2
      simp [dictInsert]
    · have hne : k ≠ k2 := fun hh => h2 hh.symm
      simp only [dictInsert, if_neg h2, List.map_cons, ih]
      by_cases hm : k ∈ t.map Prod.fst
      · rw [if_pos hm, if_pos (show k ∈ k2 :: t.map Prod.fst by simp [hm])]
      · rw [if_neg hm, if_neg (show k ∉ k2 :: t.map Prod.fst by simp [hne, hm])]
        rfl

theorem dictInsert_nodup {α : Type} (k : String) (v : α) (l : List (String × α))
    (h : (l.map Prod.fst).Nodup) : ((dictInsert k v l).map Prod.fst).Nodup := by
  rw [dictInsert_keys]
  by_cases hm : k ∈ l.map Prod.fst
  · simpa [hm] using h
  · simp only [hm, if_false]
    simp [List.nodup_append, h, hm]

theorem ncslCollect_nodup (l : List (String × String)) :
    ∀ acc : List (String × String), (acc.map Prod.fst).Nodup →
      ((ncslCollect acc l).map Prod.fst).Nodup := by
  induction l with
  | nil => intro acc h; exact h
  | cons p t ih =>
    intro acc h
    obtain ⟨nm, dv⟩ := p
    unfold ncslCollect
    cases List.lookup (⟨trimWs nm.data⟩ : String) STATE_TO_CODE with
    | none => exact ih acc h
    | some code =>
      cases fmt_mmddyyyy dv with
      | none => exact h
      | some d => exact ih _ (dictInsert_nodup code d acc h)

theorem lookup_dictUpdate (upd : List (String × String)) :
    ∀ base : List (String × String), (upd.map Prod.fst).Nodup → ∀ k : String,
      (∀ v, List.lookup k upd = some v → List.lookup k (dictUpdate base upd) = some v) ∧
      (List.lookup k upd = none → List.lookup k (dictUpdate base upd) = List.lookup k base) := by
  induction upd with
  | nil =>
    intro base _ k
    exact ⟨by intro v hv; simp [List.lookup] at hv, fun _ => rfl⟩
  | cons p t ih =>
    intro base hnd k
    obtain ⟨k0, v0⟩ := p
    rw [List.map_cons] at hnd
    have hnd2 : (t.map Prod.fst).Nodup := (List.nodup_cons.mp hnd).2
    have hk0 : k0 ∉ t.map Prod.fst := (List.nodup_cons.mp hnd).1
    constructor
    · intro v hv
      rw [lookup_consStr] at hv
      by_cases h : k = k0
      · subst h
        rw [if_pos rfl] at hv
        injection hv with hv2
        subst hv2
        have hnone : List.lookup k t = none := by
          cases hl : List.lookup k t with
          | none => rfl
          | some w => exact absurd (lookup_some_mem_keys k w t hl) hk0
        have h2 := (ih (dictInsert k v0 base) hnd2 k).2 hnone
        show List.lookup k (dictUpdate (dictInsert k v0 base) t) = some v0
        rw [h2, lookup_dictInsert, if_pos rfl]
      · rw [if_neg h] at hv
        exact (ih (dictInsert k0 v0 base) hnd2 k).1 v hv
    · intro hnone
      rw [lookup_consStr] at hnone
      have hne : ¬ k = k0 := by
        intro h
        rw [if_pos h] at hnone
        exact Option.noConfusion hnone
      rw [if_neg hne] at hnone
      show List.lookup k (dictUpdate (dictInsert k0 v0 base) t) = List.lookup k base
      rw [(ih (dictInsert k0 v0 base) hnd2 k).2 hnone, lookup_dictInsert, if_neg hne]

/-- Claim C9 (amended): the merged result always keeps an entry for every
state code of `ALL_DEFAULT_PRIMARY_DATES`; every state whose date was
collected from the live page (the collection stops at the first entry whose
date fails to validate, discarding it and all later matches) takes the live
date, every other state keeps its fallback date; and a failed fetch returns
the fallback table exactly. -/
theorem claim_C9_amended :
    parse_ncsl_primary_dates none = ALL_DEFAULT_PRIMARY_DATES ∧
    (∀ raw k v, List.lookup k (ncslCollect [] (ncslFindall raw)) = some v →
      List.lookup k (parse_ncsl_primary_dates (some raw)) = some v) ∧
    (∀ raw k, List.lookup k (ncslCollect [] (ncslFindall raw)) = none →
      List.lookup k (parse_ncsl_primary_dates (some raw)) =
        List.lookup k ALL_DEFAULT_PRIMARY_DATES) ∧
    (∀ fetch k, (List.lookup k ALL_DEFAULT_PRIMARY_DATES).isSome = true →
      (List.lookup k (parse_ncsl_primary_dates fetch)).isSome = true) := by
  have hnd : ∀ raw, ((ncslCollect [] (ncslFindall raw)).map Prod.fst).Nodup := by
    intro raw
    exact ncslCollect_nodup (ncslFindall raw) [] (by simp)
  refine ⟨rfl, ?_, ?_, ?_⟩
  · intro raw k v hv
    exact (lookup_dictUpdate (ncslCollect [] (ncslFindall raw))
      ALL_DEFAULT_PRIMARY_DATES (hnd raw) k).1 v hv
  · intro raw k hnone
    exact (lookup_dictUpdate (ncslCollect [] (ncslFindall raw))
      ALL_DEFAULT_PRIMARY_DATES (hnd raw) k).2 hnone
  · intro fetch k hk
    cases fetch with
    | none => exact hk
    | some raw =>
      cases hl : List.lookup k (ncslCollect [] (ncslFindall raw)) with
      | none =>
        show (List.lookup k
          (dictUpdate ALL_DEFAULT_PRIMARY_DATES (ncslCollect [] (ncslFindall raw)))).isSome = true
        rw [(lookup_dictUpdate (ncslCollect [] (ncslFindall raw))
          ALL_DEFAULT_PRIMARY_DATES (hnd raw) k).2 hl]
        exact hk
      | some v =>
        show (List.lookup k
          (dictUpdate ALL_DEFAULT_PRIMARY_DATES (ncslCollect [] (ncslFindall raw)))).isSome = true
        rw [(lookup_dictUpdate (ncslCollect [] (ncslFindall raw))
          ALL_DEFAULT_PRIMARY_DATES (hnd raw) k).1 v hl]
        rfl

/-- Counterexample for C9: when an earlier row carries an invalid date
(February 30), the `ValueError` aborts the whole collection loop, so a later
state (Georgia, 06/09/2026) that parses perfectly well keeps its fallback
date instead of the live one. -/
theorem claim_C9_counterexample :
    ("Georgia", "06/09/2026") ∈
      ncslFindall ">Alabama</td><td>02/30/2026</td> >Georgia</td><td>06/09/2026</td>" ∧
    fmt_mmddyyyy "06/09/2026" = some "June 9, 2026" ∧
    List.lookup "GA"
      (parse_ncsl_primary_dates
        (some ">Alabama</td><td>02/30/2026</td> >Georgia</td><td>06/09/2026</td>")) =
      some "May 19, 2026" ∧
    ("May 19, 2026" : String) ≠ "June 9, 2026" := by
  refine ⟨by decide, by decide, by decide, by decide⟩

/-- Witness for the amended C9: a clean page overrides Georgia's date, and a
failed fetch keeps every fallback entry. -/
theorem claim_C9_witness :
    List.lookup "GA" (parse_ncsl_primary_dates (some ">Georgia</td><td>06/09/2026</td>")) =
      some "June 9, 2026" ∧
    (List.lookup "AL" (parse_ncsl_primary_dates none)).isSome = true :=
  ⟨claim_C9_amended.2.1 ">Georgia</td><td>06/09/2026</td>" "GA" "June 9, 2026" (by decide),
   claim_C9_amended.2.2.2 none "AL" (by decide)⟩

theorem storyFeed_inv (items : List Story) :
    ∀ seen out, (∀ s ∈ out, storyKey s ∈ seen) →
      List.Pairwise (fun a b => storyKey a ≠ storyKey b) out →
      (∀ s ∈ (storyFeed seen out items).2, storyKey s ∈ (storyFeed seen out items).1) ∧
      List.Pairwise (fun a b => storyKey a ≠ storyKey b) (storyFeed seen out items).2 := by
  induction items with
  | nil => intro seen out h1 h2; exact ⟨h1, h2⟩
  | cons item rest ih =>
    intro seen out h1 h2
    simp only [storyFeed]
    cases hs : seen.contains (storyKey item) with
    | true =>
      simp only [if_true]
      exact ih seen out h1 h2
    | false =>
      simp only [Bool.false_eq_true, if_false]
      have hnotin : storyKey item ∉ seen := by
        simpa using hs
      have h1b : ∀ s ∈ out ++ [item], storyKey s ∈ storyKey item :: seen := by
        intro s hsm
        rcases List.mem_append.mp hsm with hso | hsi
        · exact List.mem_cons_of_mem _ (h1 s hso)
        · simp only [List.mem_singleton] at hsi
          subst hsi
          exact List.mem_cons_self _ _
      have h2b : List.Pairwise (fun a b => storyKey a ≠ storyKey b) (out ++ [item]) := by
        rw [List.pairwise_append]
        refine ⟨h2, by simp, ?_⟩
        intro a ha b hb
        simp only [List.mem_singleton] at hb
        subst hb
        intro he
        exact hnotin (he ▸ h1 a ha)
      by_cases hl : 4 ≤ (out ++ [item]).length
      · rw [if_pos hl]
        exact ⟨h1b, h2b⟩
      · rw [if_neg hl]
        exact ih _ _ h1b h2b

theorem storyFeeds_inv (feeds : List (Option (List Story))) :
    ∀ seen out, (∀ s ∈ out, storyKey s ∈ seen) →
      List.Pairwise (fun a b => storyKey a ≠ storyKey b) out →
      List.Pairwise (fun a b => storyKey a ≠ storyKey b) (storyFeeds seen out feeds) := by
  induction feeds with
  | nil => intro seen out _ h2; exact h2
  | cons feed rest ih =>
    intro seen out h1 h2
    cases feed with
    | none => exact ih seen out h1 h2
    | some items =>
      simp only [storyFeeds]
      obtain ⟨h1b, h2b⟩ := storyFeed_inv items seen out h1 h2
      by_cases hl : 4 ≤ (storyFeed seen out items).2.length
      · rw [if_pos hl]
        exact h2b
      · rw [if_neg hl]
        exact ih _ _ h1b h2b

theorem lowerStr_length (t : String) : (lowerStr t).length = t.length := by
  show (t.data.map Char.toLower).length = t.data.length
  exact List.length_map _ _

theorem str3_length (a s b : String) : (a ++ s ++ b).length = a.length + s.length + b.length := by
  rw [String.length_append, String.length_append]

theorem fallbackStories_pairwise (s : String) :
    List.Pairwise (fun a b => storyKey a ≠ storyKey b) (fallbackStories s) := by
  have key_len : ∀ x : Story, (storyKey x).length = x.point.length := by
    intro x
    exact lowerStr_length x.point
  have l1 : (("Track the latest " ++ s ++ " Senate primary coverage (Google News).") : String).length =
      s.length + 56 := by
    rw [str3_length, show ("Track the latest " : String).length = 17 from by decide,
      show (" Senate primary coverage (Google News)." : String).length = 39 from by decide]
    omega
  have l2 : (("Track the latest " ++ s ++ " Senate primary coverage (Bing News).") : String).length =
      s.length + 54 := by
    rw [str3_length, show ("Track the latest " : String).length = 17 from by decide,
      show (" Senate primary coverage (Bing News)." : String).length = 37 from by decide]
    omega
  have l3 : (("Review campaign reporting and updates for the " ++ s ++ " race.") : String).length =
      s.length + 52 := by
    rw [str3_length,
      show ("Review campaign reporting and updates for the " : String).length = 46 from by decide,
      show (" race." : String).length = 6 from by decide]
    omega
  simp only [fallbackStories, List.pairwise_cons, List.mem_cons, List.mem_singleton]
  refine ⟨?_, ?_, ?_⟩
  · intro b hb
    rcases hb with rfl | rfl | h
    · intro he
      have := congrArg String.length he
      rw [key_len, key_len] at this
      simp only at this
      rw [l1, l2] at this
      omega
    · intro he
      have := congrArg String.length he
      rw [key_len, key_len] at this
      simp only at this
      rw [l1, l3] at this
      omega
    · exact absurd h (by simp)
  · intro b hb
    rcases hb with rfl | h
    · intro he
      have := congrArg String.length he
      rw [key_len, key_len] at this
      simp only at this
      rw [l2, l3] at this
      omega
    · exact absurd h (by simp)
  · simp

/-- Claim C6: in every `get_storylines` output — deduplicated live items as
well as the static fallback records — the case-insensitively normalized
headlines are pairwise distinct; in particular two feed items with the same
normalized title contribute at most one record, the first one seen. -/
theorem claim_C6 (state_name : String) (feeds : List (Option (List Story))) :
    List.Pairwise (fun a b => storyKey a ≠ storyKey b) (get_storylines state_name feeds) := by
  simp only [get_storylines]
  by_cases h : storyFeeds [] [] feeds = []
  · rw [if_pos h]
    exact fallbackStories_pairwise state_name
  · rw [if_neg h]
    exact storyFeeds_inv feeds [] [] (by simp) (by simp)

theorem pnLtB_asymm {a b : PyNum} (h : pnLtB a b = true) : pnLtB b a = false := by
  unfold pnLtB at h ⊢
  rw [decide_eq_true_iff] at h
  rw [decide_eq_false_iff_not]
  exact lt_asymm h

theorem insertDescPM_shape (x : PolyMarket) (l : List PolyMarket) :
    insertDescPM x l = x :: l ∨
    ∃ h0 t, l = h0 :: t ∧ insertDescPM x l = h0 :: insertDescPM x t ∧ polyLiqLt x h0 = true := by
  cases l with
  | nil => left; rfl
  | cons h0 t =>
    cases hc : polyLiqLt x h0 with
    | true => right; exact ⟨h0, t, rfl, by simp [insertDescPM, hc], hc⟩
    | false => left; simp [insertDescPM, hc]

theorem mem_insertDescPM (x y : PolyMarket) :
    ∀ l, y ∈ insertDescPM x l ↔ y = x ∨ y ∈ l := by
  intro l
  induction l with
  | nil => simp [insertDescPM]
  | cons h0 t ih =>
    cases hc : polyLiqLt x h0 with
    | true =>
      rw [show insertDescPM x (h0 :: t) = h0 :: insertDescPM x t from by simp [insertDescPM, hc]]
      simp only [List.mem_cons, ih]
      tauto
    | false =>
      rw [show insertDescPM x (h0 :: t) = x :: h0 :: t from by simp [insertDescPM, hc]]
      simp only [List.mem_cons]

theorem chain_insertDescPM (x : PolyMarket) :
    ∀ l, List.Chain' (fun p q => polyLiqLt p q = false) l →
      List.Chain' (fun p q => polyLiqLt p q = false) (insertDescPM x l) := by
  intro l
  induction l with
  | nil => intro _; simp [insertDescPM]
  | cons h0 t ih =>
    intro hch
    cases hc : polyLiqLt x h0 with
    | false =>
      simp only [insertDescPM, hc, Bool.false_eq_true, if_false]
      exact List.chain'_cons.mpr ⟨hc, hch⟩
    | true =>
      simp only [insertDescPM, hc, if_true]
      have htail := hch.tail
      have hins := ih htail
      rw [List.chain'_cons']
      refine ⟨?_, hins⟩
      intro b hb
      rcases insertDescPM_shape x t with hsh | ⟨h1, t', rfl, hsh, hlt1⟩
      · rw [hsh] at hb
        simp only [List.head?_cons, Option.mem_def] at hb
        injection hb with hb2
        subst hb2
        exact pnLtB_asymm hc
      · rw [hsh] at hb
        simp only [List.head?_cons, Option.mem_def] at hb
        injection hb with hb2
        subst hb2
        exact (List.chain'_cons.mp hch).1

theorem sortDescPM_chain (l : List PolyMarket) :
    List.Chain' (fun p q => polyLiqLt p q = false) (sortDescPM l) := by
  induction l with
  | nil => simp [sortDescPM]
  | cons h0 t ih => exact chain_insertDescPM h0 (sortDescPM t) ih

theorem sortDescPM_mem (l : List PolyMarket) (y : PolyMarket) :
    y ∈ sortDescPM l ↔ y ∈ l := by
  induction l with
  | nil => simp [sortDescPM]
  | cons h0 t ih =>
    show y ∈ insertDescPM h0 (sortDescPM t) ↔ _
    rw [mem_insertDescPM, ih]
    simp [eq_comm]

theorem chain_take {R : PolyMarket → PolyMarket → Prop} :
    ∀ (n : Nat) (l : List PolyMarket), List.Chain' R l → List.Chain' R (l.take n) := by
  intro n
  induction n with
  | zero => intro l _; simp
  | succ n ih =>
    intro l hch
    cases l with
    | nil => simp
    | cons h0 t =>
      rw [List.take_succ_cons, List.chain'_cons']
      refine ⟨?_, ih t hch.tail⟩
      intro b hb
      cases t with
      | nil => simp at hb
      | cons h1 t' =>
        cases n with
        | zero => simp at hb
        | succ n2 =>
          rw [List.take_succ_cons] at hb
          simp only [List.head?_cons, Option.mem_def] at hb
          injection hb with hb2
          subst hb2
          exact (List.chain'_cons.mp hch).1

/-- Claim C7: both market matchers keep only listings whose lowercased title
contains `senate`, the state name, and `primary` or `nomination`, and return
at most 4 normalized records.  `get_polymarket` additionally ranks the kept
listings by the `liquidity` field, descending (Kalshi's feed carries no
liquidity proxy in the source, which keeps its listing order). -/
theorem claim_C7 (state_name : String) (polyFetch : Option (List PolyMarket))
    (kalshiFetches : List (Option (List KalshiMarket))) :
    ((get_polymarket state_name polyFetch).length ≤ 4 ∧
      ∃ l : List PolyMarket,
        get_polymarket state_name polyFetch = l.map polyRec ∧
        List.Chain' (fun p q => polyLiqLt p q = false) l ∧
        l.length ≤ 4 ∧
        ∀ m ∈ l, ∃ markets, polyFetch = some markets ∧ m ∈ markets ∧
          polyPred state_name m = true) ∧
    ((get_kalshi state_name kalshiFetches).length ≤ 4 ∧
      ∀ r ∈ get_kalshi state_name kalshiFetches,
        ∃ markets, some markets ∈ kalshiFetches ∧
          ∃ m ∈ markets, kalshiPred state_name m = true ∧ r = kalshiRec m) := by
  constructor
  · cases polyFetch with
    | none =>
      refine ⟨by simp [get_polymarket], [], by simp [get_polymarket], by simp, by simp, by simp⟩
    | some markets =>
      refine ⟨?_, (sortDescPM (markets.filter (polyPred state_name))).take 4, rfl, ?_, ?_, ?_⟩
      · simp only [get_polymarket, List.length_map, List.length_take]
        omega
      · exact chain_take 4 _ (sortDescPM_chain _)
      · simp only [List.length_take]
        omega
      · intro m hm
        have hm2 : m ∈ sortDescPM (markets.filter (polyPred state_name)) :=
          List.take_subset 4 _ hm
        rw [sortDescPM_mem] at hm2
        rcases List.mem_filter.mp hm2 with ⟨hmm, hmp⟩
        exact ⟨markets, rfl, hmm, hmp⟩
  · induction kalshiFetches with
    | nil => exact ⟨by simp [get_kalshi], by simp [get_kalshi]⟩
    | cons feed rest ih =>
      cases feed with
      | none =>
        refine ⟨ih.1, ?_⟩
        intro r hr
        obtain ⟨markets, hmem, hrest⟩ := ih.2 r hr
        exact ⟨markets, List.mem_cons_of_mem _ hmem, hrest⟩
      | some markets =>
        simp only [get_kalshi]
        by_cases h : ((markets.filter (kalshiPred state_name)).take 4).map kalshiRec = []
        · rw [if_pos h]
          refine ⟨ih.1, ?_⟩
          intro r hr
          obtain ⟨markets2, hmem, hrest⟩ := ih.2 r hr
          exact ⟨markets2, List.mem_cons_of_mem _ hmem, hrest⟩
        · rw [if_neg h]
          constructor
          · simp only [List.length_map, List.length_take]
            omega
          · intro r hr
            rcases List.mem_map.mp hr with ⟨m, hm, hrm⟩
            have hm2 : m ∈ markets.filter (kalshiPred state_name) := List.take_subset 4 _ hm
            rcases List.mem_filter.mp hm2 with ⟨hmm, hmp⟩
            exact ⟨markets, by simp, m, hmm, hmp, hrm.symm⟩

/-- Witness for C7 at one matching listing per market source. -/
theorem claim_C7_witness :
    (get_polymarket "Georgia"
      (some [⟨some "Georgia Senate primary winner", none, some ⟨5, 1⟩, some "slug",
        some [⟨1, 2⟩], none⟩])).length ≤ 4 ∧
    (∃ markets,
      some markets ∈ [some [(⟨some "Georgia Senate primary winner", none, none, none, none,
        none⟩ : KalshiMarket)]] ∧
      ∃ m ∈ markets, kalshiPred "Georgia" m = true ∧
        kalshiRec ⟨some "Georgia Senate primary winner", none, none, none, none, none⟩ =
          kalshiRec m) := by
  constructor
  · exact (claim_C7 "Georgia"
      (some [⟨some "Georgia Senate primary winner", none, some ⟨5, 1⟩, some "slug",
        some [⟨1, 2⟩], none⟩]) []).1.1
  · exact (claim_C7 "Georgia" none
      [some [(⟨some "Georgia Senate primary winner", none, none, none, none,
        none⟩ : KalshiMarket)]]).2.2
      (kalshiRec ⟨some "Georgia Senate primary winner", none, none, none, none, none⟩)
      (by decide)

theorem tokenRat_den_pos (cs : List Char) : 0 < (tokenRat cs).den := by
  dsimp only [tokenRat]
  split
  · split
    · simp
    · positivity
  · simp

theorem afpScan_den_pos : ∀ cs q, afpScan cs = some q → 0 < q.den := by
  intro cs
  induction cs with
  | nil => intro q h; simp [afpScan] at h
  | cons c t ih =>
    intro q h
    simp only [afpScan] at h
    cases hc : c.isDigit with
    | true =>
      rw [if_pos hc] at h
      injection h with h2
      rw [← h2]
      exact tokenRat_den_pos _
    | false =>
      rw [if_neg (by simp [hc])] at h
      exact ih q h

theorem afp_den_pos (s : String) (q : PyNum) (h : as_float_percent s = some q) : 0 < q.den :=
  afpScan_den_pos s.data q h

theorem pyMaxFold_mem : ∀ (t : List PyNum) (cur : PyNum), pyMaxFold cur t ∈ cur :: t := by
  intro t
  induction t with
  | nil => intro cur; simp [pyMaxFold]
  | cons x t' ih =>
    intro cur
    cases hc : pnLtB cur x with
    | true =>
      simp only [pyMaxFold, hc, if_true]
      exact List.mem_cons_of_mem _ (ih x)
    | false =>
      simp only [pyMaxFold, hc, Bool.false_eq_true, if_false]
      rcases List.mem_cons.mp (ih cur) with he | hm
      · rw [he]; exact List.mem_cons_self _ _
      · exact List.mem_cons_of_mem _ (List.mem_cons_of_mem _ hm)

theorem pyListMax_mem (l : List PyNum) (h : l ≠ []) : pyListMax l ∈ l := by
  cases l with
  | nil => exact absurd rfl h
  | cons v t => exact pyMaxFold_mem t v

theorem pyMaxFold_ub :
    ∀ (t : List PyNum) (cur : PyNum), 0 < cur.den → (∀ x ∈ t, 0 < x.den) →
      ∀ y ∈ cur :: t, pnVal y ≤ pnVal (pyMaxFold cur t) := by
  intro t
  induction t with
  | nil =>
    intro cur _ _ y hy
    rcases List.mem_cons.mp hy with he | hm
    · rw [he]; exact le_refl _
    · simp at hm
  | cons x t' ih =>
    intro cur hcur hpos y hy
    have hx : 0 < x.den := hpos x (List.mem_cons_self _ _)
    have hpos' : ∀ z ∈ t', 0 < z.den := fun z hz => hpos z (List.mem_cons_of_mem _ hz)
    cases hc : pnLtB cur x with
    | true =>
      have hlt : pnVal cur < pnVal x := (pnLtB_iff hcur hx).mp hc
      simp only [pyMaxFold, hc, if_true]
      have hub := ih x hx hpos'
      rcases List.mem_cons.mp hy with he | hy2
      · rw [he]
        exact le_trans (le_of_lt hlt) (hub x (List.mem_cons_self _ _))
      · exact hub y hy2
    | false =>
      have hge : pnVal x ≤ pnVal cur := (pnLtB_false_iff hcur hx).mp hc
      simp only [pyMaxFold, hc, Bool.false_eq_true, if_false]
      have hub := ih cur hcur hpos'
      rcases List.mem_cons.mp hy with he | hy2
      · rw [he]
        exact hub cur (List.mem_cons_self _ _)
      · rcases List.mem_cons.mp hy2 with he2 | hy3
        · rw [he2]
          exact le_trans hge (hub cur (List.mem_cons_self _ _))
        · exact hub y (List.mem_cons_of_mem _ hy3)

theorem pyListMax_ub (l : List PyNum) (hpos : ∀ x ∈ l, 0 < x.den) :
    ∀ y ∈ l, pnVal y ≤ pnVal (pyListMax l) := by
  cases l with
  | nil => intro y hy; simp at hy
  | cons v t =>
    exact pyMaxFold_ub t v (hpos v (List.mem_cons_self _ _))
      (fun x hx => hpos x (List.mem_cons_of_mem _ hx))

theorem argmax_spec :
    ∀ vals : List PyNum, vals ≠ [] → (∀ x ∈ vals, 0 < x.den) →
      argmaxIdx vals < vals.length ∧
      pnVal (vals.getD (argmaxIdx vals) ⟨0, 1⟩) = pnVal (pyListMax vals) ∧
      ∀ j < argmaxIdx vals, pnVal (vals.getD j ⟨0, 1⟩) < pnVal (pyListMax vals) := by
  intro vals
  induction vals with
  | nil => intro h; exact absurd rfl h
  | cons v t ih =>
    intro _ hpos
    have hvpos : 0 < v.den := hpos v (List.mem_cons_self _ _)
    by_cases ht : t = []
    · subst ht
      refine ⟨by simp [argmaxIdx], by simp [argmaxIdx, pyListMax, pyMaxFold], ?_⟩
      intro j hj
      simp [argmaxIdx] at hj
    · have hpos_t : ∀ x ∈ t, 0 < x.den := fun x hx => hpos x (List.mem_cons_of_mem _ hx)
      have hmt_mem := pyListMax_mem t ht
      have hmt_pos : 0 < (pyListMax t).den := hpos_t _ hmt_mem
      have hub_t := pyListMax_ub t hpos_t
      have hub_vt := pyListMax_ub (v :: t) hpos
      have hm_vt_mem := pyListMax_mem (v :: t) (by simp)
      obtain ⟨ihlen, ihval, ihlt⟩ := ih ht hpos_t
      simp only [argmaxIdx, if_neg ht]
      cases hc : pnLtB v (pyListMax t) with
      | true =>
        have hlt : pnVal v < pnVal (pyListMax t) := (pnLtB_iff hvpos hmt_pos).mp hc
        have hmeq : pnVal (pyListMax (v :: t)) = pnVal (pyListMax t) := by
          apply le_antisymm
          · rcases List.mem_cons.mp hm_vt_mem with he | hmem
            · rw [he]; exact le_of_lt hlt
            · exact hub_t _ hmem
          · exact hub_vt _ (List.mem_cons_of_mem _ hmt_mem)
        simp only [hc, if_true]
        refine ⟨by simp only [List.length_cons]; omega, ?_, ?_⟩
        · rw [hmeq]
          simpa using ihval
        · intro j hj
          rw [hmeq]
          cases j with
          | zero => simpa using hlt
          | succ j2 =>
            have := ihlt j2 (by omega)
            simpa using this
      | false =>
        have hge : pnVal (pyListMax t) ≤ pnVal v := (pnLtB_false_iff hvpos hmt_pos).mp hc
        have hmeq : pnVal (pyListMax (v :: t)) = pnVal v := by
          apply le_antisymm
          · rcases List.mem_cons.mp hm_vt_mem with he | hmem
            · rw [he]
            · exact le_trans (hub_t _ hmem) hge
          · exact hub_vt v (List.mem_cons_self _ _)
        simp only [hc, Bool.false_eq_true, if_false]
        refine ⟨by simp, ?_, ?_⟩
        · rw [hmeq]; simp
        · intro j hj
          omega

/-- Claim C8: on a non-empty row list whose most recent row's values all
parse (with at least two of them, and headers matching the values in count —
Python would raise an `IndexError` otherwise), `build_snapshot` succeeds
(it is a pure function); its first bullet names the candidate at the first
value-maximal position (strictly greater than everything before it, at least
as large as everything else); its second bullet reports the second row's
pollster, date and sample whenever a second row exists; and its last bullet
flags whether the leader's value is below the 50 majority threshold. -/
theorem claim_C8 (race_name : String) (headers : List String) (first : PollRow)
    (rest : List PollRow)
    (hall : (first.values.map as_float_percent).all Option.isSome = true)
    (hlen2 : 2 ≤ first.values.length)
    (hhead : headers.length = first.values.length) :
    ∃ bullets, build_snapshot race_name headers (first :: rest) = some bullets ∧
      bullets.head? = some (headers.getD (argmaxIdx (rowVals first)) "" ++
        " leads the most recent published poll row (" ++ first.spread ++ ").") ∧
      argmaxIdx (rowVals first) < (rowVals first).length ∧
      (∀ j < argmaxIdx (rowVals first),
        pnVal ((rowVals first).getD j ⟨0, 1⟩) <
          pnVal ((rowVals first).getD (argmaxIdx (rowVals first)) ⟨0, 1⟩)) ∧
      (∀ x ∈ rowVals first,
        pnVal x ≤ pnVal ((rowVals first).getD (argmaxIdx (rowVals first)) ⟨0, 1⟩)) ∧
      (∀ second rest2, rest = second :: rest2 →
        bullets.getD 1 "" = "Next-most-recent row is " ++ second.pollster ++ " (" ++
          second.date ++ ", " ++ second.sample ++ ").") ∧
      bullets.getLast? =
        some (if pnVal ((rowVals first).getD (argmaxIdx (rowVals first)) ⟨0, 1⟩) < 50 then
          "No candidate is near an outright majority in recent toplines, keeping runoff dynamics relevant."
        else "Recent toplines show a clear front-runner advantage.") := by
  have hlenv : (rowVals first).length = first.values.length := by
    simp [rowVals]
  have hne : rowVals first ≠ [] := by
    intro he
    rw [he] at hlenv
    simp at hlenv
    omega
  have hpos : ∀ x ∈ rowVals first, 0 < x.den := by
    intro x hx
    obtain ⟨o, ho, rfl⟩ := List.mem_map.mp hx
    have hsome : o.isSome = true := List.all_eq_true.mp hall o ho
    obtain ⟨q, hq⟩ := Option.isSome_iff_exists.mp hsome
    obtain ⟨v, _, hafp⟩ := List.mem_map.mp ho
    rw [hq]
    simp only [Option.getD_some]
    exact afp_den_pos v q (by rw [hafp, hq])
  obtain ⟨hA, hBval, hBlt⟩ := argmax_spec (rowVals first) hne hpos
  have hub := pyListMax_ub (rowVals first) hpos
  have hmaxpos : 0 < (pyListMax (rowVals first)).den :=
    hpos _ (pyListMax_mem _ hne)
  have hrpos : 0 < ((rowVals first).getD (argmaxIdx (rowVals first)) ⟨0, 1⟩).den := by
    apply hpos
    rw [List.getD_eq_getElem (rowVals first) ⟨0, 1⟩ hA]
    exact List.getElem_mem hA
  have h50 : pnLtB (pyListMax (rowVals first)) ⟨50, 1⟩ = true ↔
      pnVal ((rowVals first).getD (argmaxIdx (rowVals first)) ⟨0, 1⟩) < 50 := by
    rw [pnLtB_iff hmaxpos (by decide), hBval]
    have : pnVal ⟨50, 1⟩ = 50 := by norm_num [pnVal_mk]
    rw [this]
  have hrh : argmaxIdx (rowVals first) < headers.length := by omega
  have hcond1 : (first.values.map as_float_percent).all Option.isSome = true ∧
      2 ≤ (rowVals first).length := ⟨hall, by omega⟩
  simp only [build_snapshot]
  rw [if_pos hcond1, if_pos hrh]
  dsimp only
  rw [if_neg (show ¬ ((first.values.map as_float_percent).all Option.isSome = true ∧
      rowVals first = []) from fun hcc => hne hcc.2)]
  have hifeq :
      (if (first.values.map as_float_percent).all Option.isSome = true ∧
          pnLtB (pyListMax (rowVals first)) ⟨50, 1⟩ = true then
        "No candidate is near an outright majority in recent toplines, keeping runoff dynamics relevant."
      else "Recent toplines show a clear front-runner advantage.") =
      (if pnVal ((rowVals first).getD (argmaxIdx (rowVals first)) ⟨0, 1⟩) < 50 then
        "No candidate is near an outright majority in recent toplines, keeping runoff dynamics relevant."
      else "Recent toplines show a clear front-runner advantage.") := by
    apply if_congr _ rfl rfl
    constructor
    · intro hcc; exact h50.mp hcc.2
    · intro hlt; exact ⟨hall, h50.mpr hlt⟩
  rw [hifeq]
  cases rest with
  | nil =>
    refine ⟨_, rfl, rfl, hA, ?_, ?_, ?_, ?_⟩
    · intro j hj
      rw [hBval]
      exact hBlt j hj
    · intro x hx
      rw [hBval]
      exact hub x hx
    · intro second rest2 hcc
      exact absurd hcc (by simp)
    · rfl
  | cons second rest2 =>
    refine ⟨_, rfl, rfl, hA, ?_, ?_, ?_, ?_⟩
    · intro j hj
      rw [hBval]
      exact hBlt j hj
    · intro x hx
      rw [hBval]
      exact hub x hx
    · intro second2 rest3 hcc
      injection hcc with hc1 hc2
      rw [← hc1]
      rfl
    · rfl

/-- Witness for C8 on a two-row table where A leads 40-35. -/
theorem claim_C8_witness :
    ∃ bullets,
      build_snapshot "Race" ["A", "B"]
        [⟨"P", "", "d1", "s1", ["40", "35"], "A +5"⟩, ⟨"Q", "", "d2", "s2", ["10"], "—"⟩] =
        some bullets ∧
      bullets.head? = some "A leads the most recent published poll row (A +5)." ∧
      bullets.getD 1 "" = "Next-most-recent row is Q (d2, s2)." := by
  obtain ⟨bullets, h1, h2, _, _, _, h6, _⟩ :=
    claim_C8 "Race" ["A", "B"] ⟨"P", "", "d1", "s1", ["40", "35"], "A +5"⟩
      [⟨"Q", "", "d2", "s2", ["10"], "—"⟩] (by decide) (by decide) (by decide)
  refine ⟨bullets, h1, ?_, ?_⟩
  · rw [h2]
    decide
  · rw [h6 ⟨"Q", "", "d2", "s2", ["10"], "—"⟩ [] rfl]
    decide
